import Mathlib

/-!
Verification of the rating-resolution engine of the Netflix Ratings Overlay
extension, embedded shallowly from the service worker source
(src/scripts/package.js, canonical service-worker section).

Modelling conventions:
* JavaScript strings are Lean `String` values; helpers that the source
  implements with regular expressions are expressed on the underlying
  character lists.
* Fields that JavaScript may leave `undefined` are `Option` values; the
  JavaScript truthiness test for a string value (`undefined`, `null` and
  the empty string are falsy) is `jsTruthy`.
* Numbers that the source manipulates with floating-point arithmetic
  (similarity ratios, match scores) are modelled as rationals (`Rat`).
* `chrome.storage.local` is modelled by the `Env` structure: the rating
  cache as an association list plus the scalar keys the worker uses.
* The upstream OMDb HTTP interface is modelled by a script of responses
  (`List FetchOutcome`) consumed one per HTTP call, together with a log
  of issued requests; time (`Date.now()` / `new Date().toDateString()`)
  is passed in as explicit `now`/`today` parameters, held fixed within a
  single resolution.
-/

/-! ## JavaScript value helpers -/

/-- JavaScript truthiness of a possibly-undefined string value:
`undefined`/`null` and the empty string are falsy. -/
def jsTruthy : Option String → Bool
  | none => false
  | some s => !(s == "")

/-- JavaScript `a || b` for a possibly-undefined string `a` with string
default `b` (used by the source as `year || ''` and `mediaType || 'any'`). -/
def jsOrStr (a : Option String) (b : String) : String :=
  match a with
  | none => b
  | some s => if s == "" then b else s

/-- Whitespace class of the JavaScript regex `\s` restricted to the ASCII
characters that can occur in the titles the worker processes. -/
def isWSChar (c : Char) : Bool :=
  c == ' ' || c == '\t' || c == '\n' || c == '\r'

def isLowerAZ (c : Char) : Bool := 97 ≤ c.toNat && c.toNat ≤ 122

def isDigitChar (c : Char) : Bool := 48 ≤ c.toNat && c.toNat ≤ 57

/-- Characters kept by the source normalizer regex `[^a-z0-9\s]` (applied
after lowercasing): lowercase letters, digits and whitespace. -/
def keepChar (c : Char) : Bool := isLowerAZ c || isDigitChar c || isWSChar c

/-- Replace any whitespace character by a plain space. -/
def wsToSpace (c : Char) : Char := if isWSChar c then ' ' else c

/-- Collapse runs of spaces to a single space
(the source regex replace of `\s+` by a single space). -/
def squeezeSpaces : List Char → List Char
  | [] => []
  | [c] => [c]
  | a :: b :: rest =>
    if a == ' ' && b == ' ' then squeezeSpaces (b :: rest)
    else a :: squeezeSpaces (b :: rest)

/-- JavaScript `String.prototype.trim` on the already-collapsed text. -/
def trimSpaces (l : List Char) : List Char :=
  ((l.dropWhile isWSChar).reverse.dropWhile isWSChar).reverse

/-- Lowercase a string character by character
(JavaScript `toLowerCase`, for the ASCII range the worker handles). -/
def lowerStr (s : String) : String := String.mk (s.data.map Char.toLower)

/-- The source normalizer: lowercase, strip characters outside
`[a-z0-9\s]`, collapse internal whitespace, trim. -/
def normTitle (s : String) : String :=
  String.mk (trimSpaces (squeezeSpaces ((s.data.map Char.toLower).filter keepChar |>.map wsToSpace)))

/-- JavaScript `split(' ')` on character lists: split on every single
space, keeping empty segments. -/
def splitSp : List Char → List (List Char)
  | [] => [[]]
  | c :: rest =>
    match splitSp rest with
    | [] => [[c]]
    | w :: ws => if c == ' ' then [] :: w :: ws else (c :: w) :: ws

/-- The token lists both similarity functions use:
words of length greater than one. -/
def wordsOf (l : List Char) : List (List Char) :=
  (splitSp l).filter (fun w => 1 < w.length)

/-- Contiguous-substring test on character lists
(JavaScript `String.prototype.includes`). -/
def subListIn (needle hay : List Char) : Bool :=
  match hay with
  | [] => needle.isEmpty
  | _ :: rest => needle.isPrefixOf hay || subListIn needle rest

/-- JavaScript `a.includes(b)`. -/
def strIncludes (a b : String) : Bool := subListIn b.data a.data

/-! ## Matcher / scorer (package.js `isTitleMatch`, `titleSimilarity`,
`pickBest`) -/

/-- Source `isTitleMatch(query, result)`: exact normalized match, containment,
or at least 70 percent word overlap. -/
def isTitleMatch (query result : String) : Bool :=
  if query == "" || result == "" then false
  else
    let q := normTitle query
    let r := normTitle result
    if q == r then true
    else if strIncludes q r || strIncludes r q then true
    else
      let qw := wordsOf q.data
      let rw := wordsOf r.data
      if qw.isEmpty || rw.isEmpty then false
      else
        decide (((qw.filter (fun w => rw.contains w)).length : Rat) /
          (max qw.length rw.length : Rat) ≥ (7 : Rat) / 10)

/-- Source `titleSimilarity(query, result)`: 1 for exact normalized match,
`0.8 + 0.2 * shorter/longer` for containment, otherwise the shared-token
ratio over tokens of length greater than one. -/
def titleSimilarity (query result : String) : Rat :=
  if query == "" || result == "" then 0
  else
    let q := normTitle query
    let r := normTitle result
    if q == r then 1
    else if strIncludes q r || strIncludes r q then
      (8 : Rat) / 10 + ((2 : Rat) / 10) *
        (min q.length r.length : Rat) / (max q.length r.length : Rat)
    else
      let qw := wordsOf q.data
      let rw := wordsOf r.data
      if qw.isEmpty || rw.isEmpty then 0
      else ((qw.filter (fun w => rw.contains w)).length : Rat) /
        (max qw.length rw.length : Rat)

/-- JavaScript `parseInt` for the year strings the scorer feeds it:
skip leading whitespace, optional sign, then a run of decimal digits;
`none` models `NaN`. -/
def jsParseInt (s : String) : Option Int :=
  let l := s.data.dropWhile isWSChar
  let (sign, l) : Int × List Char :=
    match l with
    | '-' :: rest => (-1, rest)
    | '+' :: rest => (1, rest)
    | _ => (1, l)
  let ds := l.takeWhile isDigitChar
  if ds.isEmpty then none
  else some (sign * (ds.foldl (fun acc c => acc * 10 + (c.toNat - 48)) 0 : Nat))

/-- Candidate record shape fed to the scorer: the fields of an OMDb search
result (or full record) that `pickBest` inspects. `typ` stands for the
JSON field `Type` (a reserved word in Lean). -/
structure Cand where
  Title : Option String
  Year : Option String
  typ : Option String
  imdbRating : Option String
  Poster : Option String
  imdbID : Option String
deriving DecidableEq

/-- Title-similarity summand of the score (`titleSimilarity(...) * 50`). -/
def simScore (queryTitle : String) (c : Cand) : Rat :=
  titleSimilarity queryTitle (jsOrStr c.Title "") * 50

/-- Year-proximity summand of the score: +30 exact, +20 off by one,
+10 within three years, else 0; no bonus when either year is falsy or
fails `parseInt`. -/
def yearScore (queryYear : Option String) (c : Cand) : Rat :=
  if jsTruthy queryYear && jsTruthy c.Year then
    match jsParseInt ((c.Year).getD ""), jsParseInt (queryYear.getD "") with
    | some cy, some ty =>
      if (cy - ty).natAbs == 0 then 30
      else if (cy - ty).natAbs == 1 then 20
      else if (cy - ty).natAbs ≤ 3 then 10
      else 0
    | _, _ => 0
  else 0

/-- Bonus of 10 when the candidate carries a usable IMDb rating. -/
def ratingScore (c : Cand) : Rat :=
  if jsTruthy c.imdbRating && !(c.imdbRating == some "N/A") then 10 else 0

/-- Bonus of 5 when the candidate carries a poster reference. -/
def posterScore (c : Cand) : Rat :=
  if jsTruthy c.Poster && !(c.Poster == some "N/A") then 5 else 0

/-- Bonus of 3 when the candidate type is `movie`. -/
def movieScore (c : Cand) : Rat :=
  if c.typ == some "movie" then 3 else 0

/-- The score accumulated by the loop body of `pickBest`. -/
def scoreOf (queryTitle : String) (queryYear : Option String) (c : Cand) : Rat :=
  simScore queryTitle c + yearScore queryYear c + ratingScore c + posterScore c + movieScore c

/-- The scan of `pickBest`: keep the first candidate whose score strictly
exceeds the best seen so far (`if (score > bestScore)`). -/
def pickBestAux (qt : String) (qy : Option String) (view : α → Cand) :
    List α → Rat → Option α → Option α
  | [], _, best => best
  | c :: rest, bestScore, best =>
    let s := scoreOf qt qy (view c)
    if bestScore < s then pickBestAux qt qy view rest s (some c)
    else pickBestAux qt qy view rest bestScore best

/-- Source `pickBest(queryTitle, queryYear, candidates)`: `null` for an empty
list, the sole element of a singleton list without scoring, otherwise the
first maximal-score candidate. `view` models JavaScript duck typing: the
same function is applied both to search candidates and to full records. -/
def pickBest (qt : String) (qy : Option String) (view : α → Cand) (cands : List α) : Option α :=
  match cands with
  | [] => none
  | [c] => some c
  | _ => pickBestAux qt qy view cands (-1) none

/-! ## Data model: OMDb responses and cache records -/

/-- One element of the OMDb `Ratings` array. -/
structure RatingSrc where
  Source : Option String
  Value : Option String
deriving DecidableEq

/-- A parsed OMDb JSON response body; only the fields the worker inspects.
`typ` stands for the JSON field `Type`. -/
structure OmdbData where
  Response : Option String
  Error : Option String
  Title : Option String
  Year : Option String
  typ : Option String
  imdbID : Option String
  imdbRating : Option String
  Poster : Option String
  Ratings : Option (List RatingSrc)
  Search : Option (List Cand)
deriving DecidableEq

/-- The duck-typed view `pickBest` takes of a full OMDb record
(in `smartSearch` step 2 it scores the two exact-search results). -/
def OmdbData.toCand (d : OmdbData) : Cand :=
  ⟨d.Title, d.Year, d.typ, d.imdbRating, d.Poster, d.imdbID⟩

/-- Source `isInvalidKeyError`-style check inside `omdbFetch`:
`data.Response === 'False' && data.Error.toLowerCase().includes('invalid api key')`. -/
def isInvalidKeyData (d : OmdbData) : Bool :=
  d.Response == some "False" && jsTruthy d.Error &&
    strIncludes (lowerStr (d.Error.getD "")) "invalid api key"

/-- Source `extractRT(ratings)`: the `Value` of the first entry whose `Source` is
Rotten Tomatoes; `none` when the array is absent or has no such entry. -/
def extractRT (ratings : Option (List RatingSrc)) : Option String :=
  match ratings with
  | none => none
  | some l =>
    match l.find? (fun r => r.Source == some "Rotten Tomatoes") with
    | none => none
    | some r => r.Value

/-- A value stored under a `rating_` cache key: either a normalized
rating record or a negative-cache miss record (`notFound: true`). -/
inductive CacheVal where
  | rating (imdbRating rottenTomatoes Title Year typ imdbID : Option String) (cachedAt : Nat)
  | miss (title : Option String) (cachedAt : Nat)
deriving DecidableEq

/-- The `cachedAt` timestamp both record shapes carry. -/
def CacheVal.cachedAt : CacheVal → Nat
  | .rating _ _ _ _ _ _ t => t
  | .miss _ t => t

/-- Whether the record is a miss record (carries `notFound: true`). -/
def CacheVal.isMiss : CacheVal → Bool
  | .rating .. => false
  | .miss .. => true

/-! ## Storage model (`chrome.storage.local`) -/

/-- First-match association-list read (storage keys are unique in the
real store; the resolver maintains that invariant). -/
def getKey : List (String × CacheVal) → String → Option CacheVal
  | [], _ => none
  | (k0, v0) :: rest, k => if k0 = k then some v0 else getKey rest k

/-- Upsert with JavaScript object-key semantics: an existing key keeps its
position, a new key is appended at the end. -/
def setKey : List (String × CacheVal) → String → CacheVal → List (String × CacheVal)
  | [], k, v => [(k, v)]
  | (k0, v0) :: rest, k, v =>
    if k0 = k then (k, v) :: rest else (k0, v0) :: setKey rest k v

/-- Source `chrome.storage.local.remove(keys)` restricted to the rating cache. -/
def delKeys (ks : List String) (l : List (String × CacheVal)) : List (String × CacheVal) :=
  l.filter (fun e => !(ks.contains e.1))

/-- The worker state kept in `chrome.storage.local`: the rating cache
plus the scalar keys `apiKey`, `apiCallsToday`, `apiCallsDate` and
`_nro_cacheWriteCount` (none of which carries the `rating_` prefix, so
they are unaffected by cache pruning). -/
structure Env where
  cache : List (String × CacheVal)
  apiKey : Option String
  apiCallsToday : Option Nat
  apiCallsDate : Option String
  pruneCounter : Option Nat
deriving DecidableEq

/-! ## Constants (package.js, canonical service-worker section) -/

def CACHE_TTL_MS : Nat := 7 * 24 * 60 * 60 * 1000

def MAX_CACHE_SIZE : Nat := 1000

def PRUNE_INTERVAL : Nat := 50

def API_DAILY_LIMIT : Nat := 1000

def CACHE_KEY_PREFIX : String := "rating_"

/-- Source `key.startsWith(CACHE_KEY_PREFIX)`, expressed on character data. -/
def hasRatingPre (k : String) : Bool :=
  CACHE_KEY_PREFIX.data.isPrefixOf k.data

/-! ## Quota tracking -/

/-- Source `getApiCallCount()`: the stored count when the stored date is today,
otherwise 0 (lazy daily rollover). -/
def getApiCallCount (env : Env) (today : String) : Nat :=
  if env.apiCallsDate == some today then env.apiCallsToday.getD 0 else 0

/-- Source `isOverLimit()`. -/
def isOverLimit (env : Env) (today : String) : Bool :=
  API_DAILY_LIMIT ≤ getApiCallCount env today

/-- Source `incrementApiCalls()` as run by a single sequential resolution (the
`_counterLock` mutex matters only under concurrency; see the `Quota`
namespace below for the concurrent model). The warn-threshold console
log is observability only and is not modelled. -/
def incrementApiCalls (env : Env) (today : String) : Env :=
  let count := if env.apiCallsDate == some today then env.apiCallsToday.getD 0 + 1 else 1
  { env with apiCallsToday := some count, apiCallsDate := some today }

/-! ## Cache operations -/

/-- Source `getCached(key)`: absent keys and entries past the TTL read as `null`;
an expired entry is removed as a side effect of the read. -/
def getCached (now : Nat) (key : String) (env : Env) : Option CacheVal × Env :=
  match getKey env.cache key with
  | none => (none, env)
  | some entry =>
    if CACHE_TTL_MS < now - entry.cachedAt then
      (none, { env with cache := delKeys [key] env.cache })
    else (some entry, env)

/-- The expiry test `pruneCache` applies to an entry: a falsy `cachedAt`
(the numeric 0) or an age beyond the TTL. -/
def expiredB (now : Nat) (v : CacheVal) : Bool :=
  v.cachedAt == 0 || CACHE_TTL_MS < now - v.cachedAt

/-- A storage entry `pruneCache` classifies as expired: a `rating_` key
whose record has a falsy or over-TTL `cachedAt`. -/
def entExpired (now : Nat) (e : String × CacheVal) : Bool :=
  hasRatingPre e.1 && expiredB now e.2

/-- A storage entry `pruneCache` classifies as valid. -/
def entValid (now : Nat) (e : String × CacheVal) : Bool :=
  hasRatingPre e.1 && !expiredB now e.2

/-- The ascending `cachedAt` comparison `pruneCache` sorts with
(`(a, b) => a.cachedAt - b.cachedAt`). -/
def byAge (a b : String × CacheVal) : Bool :=
  decide (a.2.cachedAt ≤ b.2.cachedAt)

/-- The key list `pruneCache` removes: expired `rating_` entries and, when
more than `MAX_CACHE_SIZE` valid entries remain, the oldest-by-`cachedAt`
excess. -/
def pruneRemovalKeys (now : Nat) (cache : List (String × CacheVal)) : List String :=
  if MAX_CACHE_SIZE < (cache.filter (entValid now)).length then
    (cache.filter (entExpired now)).map (·.1) ++
      (((cache.filter (entValid now)).mergeSort byAge).take
        ((cache.filter (entValid now)).length - MAX_CACHE_SIZE)).map (·.1)
  else (cache.filter (entExpired now)).map (·.1)

/-- The storage contents after one `pruneCache()` run. -/
def pruneList (now : Nat) (cache : List (String × CacheVal)) : List (String × CacheVal) :=
  delKeys (pruneRemovalKeys now cache) cache

/-- Source `pruneCache()`: collect expired `rating_` entries and, when more than
`MAX_CACHE_SIZE` valid entries remain, also the oldest-by-`cachedAt`
excess, then remove all collected keys in one call. The JavaScript guard
skipping an empty `remove` call is omitted (removing no keys is the
identity). -/
def pruneCache (now : Nat) (env : Env) : Env :=
  { env with cache := pruneList now env.cache }

/-- Source `writeCache(key, data)`: write the entry and the bumped prune counter
in one storage write, then prune on every `PRUNE_INTERVAL`-th write. -/
def writeCache (now : Nat) (key : String) (data : CacheVal) (env : Env) : Env :=
  let count := env.pruneCounter.getD 0 + 1
  let env' := { env with
    cache := setKey env.cache key data,
    pruneCounter := some (if PRUNE_INTERVAL ≤ count then 0 else count) }
  if PRUNE_INTERVAL ≤ count then pruneCache now env' else env'

/-- Source `processAndCache(cacheKey, data)`: an `'N/A'` IMDb rating is dropped;
when neither rating survives, a miss record is cached and returned,
otherwise the normalized rating record is cached and returned. -/
def processAndCache (now : Nat) (key : String) (d : OmdbData) (env : Env) : CacheVal × Env :=
  let imdbR := if d.imdbRating == some "N/A" then none else d.imdbRating
  let rt := extractRT d.Ratings
  if !jsTruthy imdbR && !jsTruthy rt then
    let m := CacheVal.miss d.Title now
    (m, writeCache now key m env)
  else
    let r := CacheVal.rating imdbR rt d.Title d.Year d.typ d.imdbID now
    (r, writeCache now key r env)

/-! ## Upstream HTTP model -/

/-- The outcome the network delivers for one HTTP call: a parsed JSON
body, an 8-second timeout abort, or any other network/parse failure. -/
inductive FetchOutcome where
  | ok (data : OmdbData)
  | timeout
  | netfail (msg : String)
deriving DecidableEq

/-- The request parameter sets `omdbFetch` is invoked with (`t=` exact
lookup, `s=` keyword search, `i=` detail fetch). Falsy `year`/`type`
values are recorded as given; the source omits them from the URL. -/
inductive OmdbReq where
  | exactQ (apikey title : String) (year : Option String) (typ : Option String)
  | searchQ (apikey title : String) (typ : Option String)
  | detailQ (apikey : String) (imdbID : Option String)
deriving DecidableEq

/-- Worker state for one resolution: the storage, the scripted upstream
responses still to be consumed, and the log of issued HTTP calls. -/
structure SW where
  env : Env
  script : List FetchOutcome
  log : List OmdbReq
deriving DecidableEq

def invalidKeyMsg : String :=
  "Invalid API key. Please update your key in the extension settings."

def timeoutMsg : String :=
  "Request timed out. OMDb API may be slow — please try again."

def credMissingMsg : String :=
  "API key not configured. Click the extension icon to add your OMDb API key."

def quotaMsg : String :=
  "Daily API limit reached (1,000 requests). Ratings will resume tomorrow."

/-- Source `omdbFetch(params)`: issue the call; on a parsed response increment
the quota counter and reject invalid-key bodies; a timeout or other
network/parse failure is rethrown before any increment. An exhausted
script is read as a network failure. -/
def omdbFetch (today : String) (req : OmdbReq) (sw : SW) : Except String OmdbData × SW :=
  let sw := { sw with log := sw.log ++ [req] }
  match sw.script with
  | [] => (Except.error "NetworkError", sw)
  | outcome :: rest =>
    let sw := { sw with script := rest }
    match outcome with
    | .ok d =>
      let sw := { sw with env := incrementApiCalls sw.env today }
      if isInvalidKeyData d then (Except.error invalidKeyMsg, sw)
      else (Except.ok d, sw)
    | .timeout => (Except.error timeoutMsg, sw)
    | .netfail m => (Except.error m, sw)

/-! ## Search strategies -/

/-- Source `exactSearch(apiKey, title, year, type)`. -/
def exactSearch (today apiKey title : String) (year typ : Option String) (sw : SW) :
    Except String (Option OmdbData) × SW :=
  match omdbFetch today (OmdbReq.exactQ apiKey title year typ) sw with
  | (Except.error e, sw) => (Except.error e, sw)
  | (Except.ok d, sw) =>
    (Except.ok (if d.Response == some "True" then some d else none), sw)

/-- Source `searchBothTypes(apiKey, title, year)`: movie first, then series if
quota remains. -/
def searchBothTypes (today apiKey title : String) (year : Option String) (sw : SW) :
    Except String (Option OmdbData) × SW :=
  match exactSearch today apiKey title year (some "movie") sw with
  | (Except.error e, sw) => (Except.error e, sw)
  | (Except.ok (some movie), sw) => (Except.ok (some movie), sw)
  | (Except.ok none, sw) =>
    if isOverLimit sw.env today then (Except.ok none, sw)
    else exactSearch today apiKey title year (some "series") sw

/-- Step 3 of `smartSearch`: the broad keyword search, candidate scoring
and the follow-up detail fetch. -/
def smartStep3 (today apiKey title : String) (year mediaType : Option String) (sw : SW) :
    Except String (Option OmdbData) × SW :=
  if isOverLimit sw.env today then (Except.ok none, sw)
  else
    match omdbFetch today (OmdbReq.searchQ apiKey title mediaType) sw with
    | (Except.error e, sw) => (Except.error e, sw)
    | (Except.ok sd, sw) =>
      if !(sd.Response == some "True") || (sd.Search.getD []).isEmpty then
        (Except.ok none, sw)
      else
        match pickBest title year (fun c => c) (sd.Search.getD []) with
        | none => (Except.ok none, sw)
        | some best =>
          if isOverLimit sw.env today then (Except.ok none, sw)
          else
            match omdbFetch today (OmdbReq.detailQ apiKey best.imdbID) sw with
            | (Except.error e, sw) => (Except.error e, sw)
            | (Except.ok dd, sw) =>
              (Except.ok (if dd.Response == some "True" then some dd else none), sw)

/-- Source `smartSearch(apiKey, title, year, mediaType)`: exact search with the
preferred type, then (quota permitting) the alternate type, then the
broad keyword search. -/
def smartSearch (today apiKey title : String) (year mediaType : Option String) (sw : SW) :
    Except String (Option OmdbData) × SW :=
  let preferredType := jsOrStr mediaType "movie"
  match exactSearch today apiKey title year (some preferredType) sw with
  | (Except.error e, sw) => (Except.error e, sw)
  | (Except.ok exact, sw) =>
    let exactOk := exact.any (fun d => isTitleMatch title (jsOrStr d.Title ""))
    if !isOverLimit sw.env today then
      match exactSearch today apiKey title year
          (some (if preferredType == "movie" then "series" else "movie")) sw with
      | (Except.error e, sw) => (Except.error e, sw)
      | (Except.ok alt, sw) =>
        let altOk := alt.any (fun d => isTitleMatch title (jsOrStr d.Title ""))
        if altOk && exactOk then
          (Except.ok (pickBest title year OmdbData.toCand (exact.toList ++ alt.toList)), sw)
        else if altOk then (Except.ok alt, sw)
        else if exactOk then (Except.ok exact, sw)
        else smartStep3 today apiKey title year mediaType sw
    else
      if exactOk then (Except.ok exact, sw)
      else smartStep3 today apiKey title year mediaType sw

/-- Source `queryOMDb(apiKey, title, year, mediaType)`: strategy dispatch on
which metadata is truthy. -/
def queryOMDb (today apiKey title : String) (year mediaType : Option String) (sw : SW) :
    Except String (Option OmdbData) × SW :=
  if jsTruthy year && jsTruthy mediaType then
    exactSearch today apiKey title year mediaType sw
  else if jsTruthy year then
    searchBothTypes today apiKey title year sw
  else
    smartSearch today apiKey title year mediaType sw

/-! ## Top-level handler -/

/-- The response `handleFetchRating` sends back: a rating-or-miss record
or a structured `{ error }` object. -/
inductive FetchResult where
  | found (v : CacheVal)
  | err (msg : String)
deriving DecidableEq

/-- The cache key for a lookup query:
`rating_` + lowercased title truncated to 100 characters + `_year_type`. -/
def cacheKeyOf (title : String) (year mediaType : Option String) : String :=
  CACHE_KEY_PREFIX ++ (lowerStr title).take 100 ++ "_" ++ jsOrStr year "" ++
    "_" ++ jsOrStr mediaType "any"

/-- Source `handleFetchRating({title, year, mediaType})`: cache check, credential
check, quota check, strategy dispatch, result/miss caching; any error
thrown by the strategies is caught and returned as a structured error. -/
def handleFetchRating (now : Nat) (today : String) (title : String)
    (year mediaType : Option String) (sw : SW) : FetchResult × SW :=
  let key := cacheKeyOf title year mediaType
  match getCached now key sw.env with
  | (some c, env) => (FetchResult.found c, { sw with env := env })
  | (none, env) =>
    let sw := { sw with env := env }
    if !jsTruthy sw.env.apiKey then (FetchResult.err credMissingMsg, sw)
    else if API_DAILY_LIMIT ≤ getApiCallCount sw.env today then
      (FetchResult.err quotaMsg, sw)
    else
      match queryOMDb today (sw.env.apiKey.getD "") title year mediaType sw with
      | (Except.error e, sw) => (FetchResult.err e, sw)
      | (Except.ok (some d), sw) =>
        let pr := processAndCache now key d sw.env
        (FetchResult.found pr.1, { sw with env := pr.2 })
      | (Except.ok none, sw) =>
        let m := CacheVal.miss (some title) now
        (FetchResult.found m, { sw with env := writeCache now key m sw.env })

/-! ## Association-list lemmas -/

theorem getKey_eq_none_iff (l : List (String × CacheVal)) (k : String) :
    getKey l k = none ↔ ∀ p ∈ l, p.1 ≠ k := by
  induction l with
  | nil => simp [getKey]
  | cons hd tl ih =>
    obtain ⟨k0, v0⟩ := hd
    by_cases h : k0 = k
    · subst h
      simp [getKey]
    · simp [getKey, h, ih]

theorem getKey_append_of_none (l1 l2 : List (String × CacheVal)) (k : String)
    (h : getKey l1 k = none) : getKey (l1 ++ l2) k = getKey l2 k := by
  induction l1 with
  | nil => simp
  | cons hd tl ih =>
    obtain ⟨k0, v0⟩ := hd
    by_cases hk : k0 = k
    · simp [getKey, hk] at h
    · simp only [getKey, hk, if_false, List.cons_append] at h ⊢
      exact ih h

theorem setKey_fresh (l : List (String × CacheVal)) (k : String) (v : CacheVal)
    (h : getKey l k = none) : setKey l k v = l ++ [(k, v)] := by
  induction l with
  | nil => simp [setKey]
  | cons hd tl ih =>
    obtain ⟨k0, v0⟩ := hd
    by_cases hk : k0 = k
    · simp [getKey, hk] at h
    · simp only [getKey, hk, if_false] at h
      simp [setKey, hk, ih h]

theorem getKey_filterKey (q : String → Bool) (l : List (String × CacheVal)) (k : String) :
    getKey (l.filter (fun e => q e.1)) k = if q k then getKey l k else none := by
  induction l with
  | nil => simp [getKey]
  | cons hd tl ih =>
    obtain ⟨k0, v0⟩ := hd
    by_cases hq : q k0
    · rw [List.filter_cons_of_pos (by simpa using hq)]
      by_cases hk : k0 = k
      · subst hk
        simp [getKey, hq]
      · simp only [getKey, hk, if_false]
        exact ih
    · rw [List.filter_cons_of_neg (by simpa using hq)]
      by_cases hk : k0 = k
      · subst hk
        rw [ih]
        simp [hq]
      · simp only [getKey, hk, if_false]
        exact ih

theorem mem_setKey_map_fst (l : List (String × CacheVal)) (k : String) (v : CacheVal)
    (x : String) (hx : x ∈ (setKey l k v).map Prod.fst) :
    x = k ∨ x ∈ l.map Prod.fst := by
  induction l with
  | nil =>
    simp [setKey] at hx
    exact Or.inl hx
  | cons hd tl ih =>
    obtain ⟨k0, v0⟩ := hd
    simp only [setKey] at hx
    by_cases hk : k0 = k
    · rw [if_pos hk] at hx
      simp only [List.map_cons, List.mem_cons] at hx
      rcases hx with h1 | h1
      · exact Or.inl h1
      · exact Or.inr (List.mem_cons_of_mem _ h1)
    · rw [if_neg hk] at hx
      simp only [List.map_cons, List.mem_cons] at hx
      rcases hx with h1 | h1
      · exact Or.inr (List.mem_cons.mpr (Or.inl h1))
      · rcases ih h1 with h2 | h2
        · exact Or.inl h2
        · exact Or.inr (List.mem_cons_of_mem _ h2)

theorem setKey_map_fst_nodup (l : List (String × CacheVal)) (k : String) (v : CacheVal)
    (h : (l.map Prod.fst).Nodup) : ((setKey l k v).map Prod.fst).Nodup := by
  induction l with
  | nil => simp [setKey]
  | cons hd tl ih =>
    obtain ⟨k0, v0⟩ := hd
    simp only [List.map_cons, List.nodup_cons] at h
    simp only [setKey]
    by_cases hk : k0 = k
    · rw [if_pos hk]
      subst hk
      simp only [List.map_cons, List.nodup_cons]
      exact h
    · rw [if_neg hk]
      simp only [List.map_cons, List.nodup_cons]
      refine ⟨?_, ih h.2⟩
      intro hmem
      rcases mem_setKey_map_fst tl k v k0 hmem with h' | h'
      · exact hk h'
      · exact h.1 h'

/-! ## Prune lemmas -/

theorem byAge_trans : ∀ a b c : String × CacheVal, byAge a b → byAge b c → byAge a c := by
  intro a b c hab hbc
  simp only [byAge, decide_eq_true_eq] at hab hbc ⊢
  omega

theorem byAge_total : ∀ a b : String × CacheVal, byAge a b || byAge b a := by
  intro a b
  simp only [byAge, Bool.or_eq_true, decide_eq_true_eq]
  omega

theorem dup_in_sorted_absurd {α : Type} [DecidableEq α] {le : α → α → Bool}
    {l0 : List α} {a : α} {flt : List α} {n : Nat}
    (hna : a ∉ l0) (hsub : List.Sublist flt (l0 ++ [a]))
    (ht : a ∈ (flt.mergeSort le).take n)
    (hd : a ∈ (flt.mergeSort le).drop n) : False := by
  have h2 : List.Sublist [a, a] (flt.mergeSort le) := by
    have := List.Sublist.append (List.singleton_sublist.mpr ht) (List.singleton_sublist.mpr hd)
    simpa [List.take_append_drop] using this
  have hdup : List.Duplicate a (flt.mergeSort le) := List.duplicate_iff_sublist.mpr h2
  have hcount : 2 ≤ List.count a (flt.mergeSort le) := List.duplicate_iff_two_le_count.mp hdup
  have hperm := (List.mergeSort_perm flt le).count_eq a
  have hle := hsub.count_le a
  have hbase : List.count a (l0 ++ [a]) = 1 := by
    rw [List.count_append, List.count_eq_zero_of_not_mem hna]
    simp
  omega

theorem contains_eq_false_of_not_mem {l : List String} {a : String} (h : a ∉ l) :
    l.contains a = false := by
  cases hc : l.contains a
  · rfl
  · exact absurd (by simpa using hc) h

theorem getKey_pruneList_fresh (now : Nat) (l : List (String × CacheVal)) (k : String)
    (v : CacheVal) (hk : getKey l k = none)
    (hold : ∀ p ∈ l, p.2.cachedAt < now)
    (hv : v.cachedAt = now) (hnow : 0 < now) :
    getKey (pruneList now (l ++ [(k, v)])) k = some v := by
  have hkl : ∀ p ∈ l, p.1 ≠ k := (getKey_eq_none_iff l k).1 hk
  have hget : getKey (l ++ [(k, v)]) k = some v := by
    rw [getKey_append_of_none _ _ _ hk]
    simp [getKey]
  have huniq : ∀ e, e ∈ l ++ [(k, v)] → e.1 = k → e = (k, v) := by
    intro e he hek
    rcases List.mem_append.1 he with h | h
    · exact absurd hek (hkl e h)
    · simpa using h
  have hexp : expiredB now v = false := by
    unfold expiredB
    rw [hv, Nat.sub_self]
    have hne : ¬ now = 0 := by omega
    simp [hne]
  have hexpv : entExpired now (k, v) = false := by
    unfold entExpired
    simp [hexp]
  set cache := l ++ [(k, v)] with hc
  have hmemnot : k ∉ pruneRemovalKeys now cache := by
    intro hmemk
    unfold pruneRemovalKeys at hmemk
    by_cases hover : MAX_CACHE_SIZE < (cache.filter (entValid now)).length
    · rw [if_pos hover] at hmemk
      rcases List.mem_append.1 hmemk with hmem1 | hmem2
      · rcases List.mem_map.1 hmem1 with ⟨e, he, hek⟩
        have he' := List.mem_filter.1 he
        have heq := huniq e he'.1 hek
        rw [heq, hexpv] at he'
        exact Bool.false_ne_true he'.2
      · rcases List.mem_map.1 hmem2 with ⟨a, ha, hak⟩
        have haS : a ∈ (cache.filter (entValid now)).mergeSort byAge :=
          List.mem_of_mem_take ha
        have haV : a ∈ cache.filter (entValid now) :=
          ((List.mergeSort_perm _ byAge).mem_iff).1 haS
        have haC := List.mem_filter.1 haV
        have hakv : a = (k, v) := huniq a haC.1 hak
        rw [hakv] at ha
        have hlen : (((cache.filter (entValid now)).mergeSort byAge).drop
            ((cache.filter (entValid now)).length - MAX_CACHE_SIZE)).length = MAX_CACHE_SIZE := by
          rw [List.length_drop, List.length_mergeSort]
          omega
        have hKne : ((cache.filter (entValid now)).mergeSort byAge).drop
            ((cache.filter (entValid now)).length - MAX_CACHE_SIZE) ≠ [] := by
          apply List.ne_nil_of_length_pos
          rw [hlen]
          norm_num [MAX_CACHE_SIZE]
        obtain ⟨b, hb⟩ := List.exists_mem_of_ne_nil _ hKne
        have hsort : List.Pairwise (fun a b => byAge a b = true)
            ((cache.filter (entValid now)).mergeSort byAge) :=
          List.sorted_mergeSort byAge_trans byAge_total _
        have hTK := List.take_append_drop
          ((cache.filter (entValid now)).length - MAX_CACHE_SIZE)
          ((cache.filter (entValid now)).mergeSort byAge)
        have hpw := (List.pairwise_append.1 (by rw [hTK]; exact hsort)).2.2
        have hle : byAge (k, v) b := hpw (k, v) ha b hb
        have hble : now ≤ b.2.cachedAt := by
          have := of_decide_eq_true hle
          rw [hv] at this
          exact this
        have hbV : b ∈ cache.filter (entValid now) :=
          ((List.mergeSort_perm _ byAge).mem_iff).1 (List.mem_of_mem_drop hb)
        have hbC := (List.mem_filter.1 hbV).1
        by_cases hbk : b.1 = k
        · have hbkv : b = (k, v) := huniq b hbC hbk
          rw [hbkv] at hb
          have hna : (k, v) ∉ l := fun hmem => hkl (k, v) hmem rfl
          have hsub : List.Sublist (cache.filter (entValid now)) (l ++ [(k, v)]) := by
            rw [← hc]
            exact List.filter_sublist cache
          exact dup_in_sorted_absurd hna hsub ha hb
        · have hbl : b ∈ l := by
            rcases List.mem_append.1 hbC with h | h
            · exact h
            · exfalso
              apply hbk
              simp only [List.mem_singleton] at h
              rw [h]
          have := hold b hbl
          omega
    · rw [if_neg hover] at hmemk
      rcases List.mem_map.1 hmemk with ⟨e, he, hek⟩
      have he' := List.mem_filter.1 he
      have heq := huniq e he'.1 hek
      rw [heq, hexpv] at he'
      exact Bool.false_ne_true he'.2
  unfold pruneList delKeys
  rw [getKey_filterKey (fun s => !((pruneRemovalKeys now cache).contains s)) cache k]
  rw [contains_eq_false_of_not_mem hmemnot]
  simpa using hget

theorem getKey_writeCache_fresh (now : Nat) (key : String) (v : CacheVal) (env : Env)
    (hk : getKey env.cache key = none)
    (hold : ∀ p ∈ env.cache, p.2.cachedAt < now)
    (hv : v.cachedAt = now) (hnow : 0 < now) :
    getKey (writeCache now key v env).cache key = some v := by
  unfold writeCache
  by_cases htrig : PRUNE_INTERVAL ≤ env.pruneCounter.getD 0 + 1
  · simp only [htrig, if_true]
    unfold pruneCache
    simp only
    rw [setKey_fresh _ _ _ hk]
    exact getKey_pruneList_fresh now env.cache key v hk hold hv hnow
  · simp only [htrig, if_false]
    rw [setKey_fresh _ _ _ hk, getKey_append_of_none _ _ _ hk]
    simp [getKey]

/-! ## getCached lemmas -/

theorem getCached_some (now : Nat) (key : String) (env : Env) (c : CacheVal) (env' : Env)
    (h : getCached now key env = (some c, env')) :
    env' = env ∧ getKey env.cache key = some c ∧ ¬ CACHE_TTL_MS < now - c.cachedAt := by
  unfold getCached at h
  rcases hg : getKey env.cache key with _ | entry
  · rw [hg] at h
    simp at h
  · rw [hg] at h
    simp only [] at h
    by_cases hexp : CACHE_TTL_MS < now - entry.cachedAt
    · rw [if_pos hexp] at h
      simp at h
    · rw [if_neg hexp] at h
      simp only [Prod.mk.injEq, Option.some.injEq] at h
      obtain ⟨h1, h2⟩ := h
      subst h1
      subst h2
      exact ⟨rfl, rfl, hexp⟩

theorem getCached_none (now : Nat) (key : String) (env : Env) (env' : Env)
    (h : getCached now key env = (none, env')) :
    getKey env'.cache key = none ∧ List.Sublist env'.cache env.cache ∧
      env'.apiKey = env.apiKey ∧ env'.apiCallsToday = env.apiCallsToday ∧
      env'.apiCallsDate = env.apiCallsDate ∧ env'.pruneCounter = env.pruneCounter := by
  unfold getCached at h
  rcases hg : getKey env.cache key with _ | entry
  · rw [hg] at h
    simp only [] at h
    obtain ⟨-, h2⟩ := Prod.mk.injEq .. ▸ h
    subst h2
    exact ⟨hg, List.Sublist.refl _, rfl, rfl, rfl, rfl⟩
  · rw [hg] at h
    simp only [] at h
    by_cases hexp : CACHE_TTL_MS < now - entry.cachedAt
    · rw [if_pos hexp] at h
      obtain ⟨-, h2⟩ := Prod.mk.injEq .. ▸ h
      subst h2
      refine ⟨?_, List.filter_sublist _, rfl, rfl, rfl, rfl⟩
      have := getKey_filterKey (fun s => !([key].contains s)) env.cache key
      simpa [delKeys] using this
    · rw [if_neg hexp] at h
      simp at h

/-! ## The search pipeline touches only the quota fields of storage -/

/-- Two storage states that agree on everything except the quota-counter
pair (the only thing `incrementApiCalls` writes). -/
def envSame (a b : Env) : Prop :=
  a.cache = b.cache ∧ a.apiKey = b.apiKey ∧ a.pruneCounter = b.pruneCounter

theorem envSame_refl (a : Env) : envSame a a := ⟨rfl, rfl, rfl⟩

theorem envSame_trans {a b c : Env} (h1 : envSame a b) (h2 : envSame b c) : envSame a c :=
  ⟨h1.1.trans h2.1, h1.2.1.trans h2.2.1, h1.2.2.trans h2.2.2⟩

theorem omdbFetch_env (today : String) (req : OmdbReq) (sw : SW) :
    envSame (omdbFetch today req sw).2.env sw.env := by
  unfold omdbFetch
  rcases hs : sw.script with _ | ⟨o, rest⟩
  · simp [hs, envSame_refl]
  · cases o with
    | ok d =>
      by_cases hik : isInvalidKeyData d
      · simp [hs, hik, incrementApiCalls, envSame]
      · simp [hs, hik, incrementApiCalls, envSame]
    | timeout => simp [hs, envSame_refl]
    | netfail m => simp [hs, envSame_refl]

theorem exactSearch_env (today apiKey title : String) (year typ : Option String) (sw : SW) :
    envSame (exactSearch today apiKey title year typ sw).2.env sw.env := by
  unfold exactSearch
  rcases h : omdbFetch today (OmdbReq.exactQ apiKey title year typ) sw with ⟨r, sw'⟩
  have he := omdbFetch_env today (OmdbReq.exactQ apiKey title year typ) sw
  rw [h] at he
  cases r <;> simpa using he

theorem searchBothTypes_env (today apiKey title : String) (year : Option String) (sw : SW) :
    envSame (searchBothTypes today apiKey title year sw).2.env sw.env := by
  unfold searchBothTypes
  rcases h : exactSearch today apiKey title year (some "movie") sw with ⟨r, sw'⟩
  have he := exactSearch_env today apiKey title year (some "movie") sw
  rw [h] at he
  cases r with
  | error e => simpa using he
  | ok od =>
    cases od with
    | some movie => simpa using he
    | none =>
      by_cases hl : isOverLimit sw'.env today
      · simpa [hl] using he
      · simp only [hl, if_false, Bool.false_eq_true]
        exact envSame_trans (exactSearch_env today apiKey title year (some "series") sw') he

theorem smartStep3_env (today apiKey title : String) (year mediaType : Option String) (sw : SW) :
    envSame (smartStep3 today apiKey title year mediaType sw).2.env sw.env := by
  unfold smartStep3
  by_cases h1 : isOverLimit sw.env today
  · simp [h1, envSame_refl]
  · simp only [h1, if_false, Bool.false_eq_true]
    rcases h2 : omdbFetch today (OmdbReq.searchQ apiKey title mediaType) sw with ⟨r, sw1⟩
    have e1 := omdbFetch_env today (OmdbReq.searchQ apiKey title mediaType) sw
    rw [h2] at e1
    cases r with
    | error e => simpa using e1
    | ok sd =>
      by_cases h3 : !(sd.Response == some "True") || (sd.Search.getD []).isEmpty
      · simpa [h3] using e1
      · simp only [h3, if_false, Bool.false_eq_true]
        rcases h4 : pickBest title year (fun c => c) (sd.Search.getD []) with _ | best
        · simpa using e1
        · simp only
          by_cases h5 : isOverLimit sw1.env today
          · simpa [h5] using e1
          · simp only [h5, if_false, Bool.false_eq_true]
            rcases h6 : omdbFetch today (OmdbReq.detailQ apiKey best.imdbID) sw1 with ⟨r2, sw2⟩
            have e2 := omdbFetch_env today (OmdbReq.detailQ apiKey best.imdbID) sw1
            rw [h6] at e2
            cases r2 <;> simpa using envSame_trans e2 e1

theorem smartSearch_env (today apiKey title : String) (year mediaType : Option String) (sw : SW) :
    envSame (smartSearch today apiKey title year mediaType sw).2.env sw.env := by
  unfold smartSearch
  dsimp only
  split
  next e sw1 heq =>
    have e1 := exactSearch_env today apiKey title year (some (jsOrStr mediaType "movie")) sw
    rw [heq] at e1
    exact e1
  next exact sw1 heq =>
    have e1 := exactSearch_env today apiKey title year (some (jsOrStr mediaType "movie")) sw
    rw [heq] at e1
    split
    · split
      next e sw2 heq2 =>
        have e2 : envSame sw2.env sw1.env := by
          have h := exactSearch_env today apiKey title year
            (some (if jsOrStr mediaType "movie" == "movie" then "series" else "movie")) sw1
          rw [heq2] at h
          exact h
        exact envSame_trans e2 e1
      next alt sw2 heq2 =>
        have e2 : envSame sw2.env sw1.env := by
          have h := exactSearch_env today apiKey title year
            (some (if jsOrStr mediaType "movie" == "movie" then "series" else "movie")) sw1
          rw [heq2] at h
          exact h
        have e12 := envSame_trans e2 e1
        split
        · exact e12
        · split
          · exact e12
          · split
            · exact e12
            · exact envSame_trans (smartStep3_env today apiKey title year mediaType sw2) e12
    · split
      · exact e1
      · exact envSame_trans (smartStep3_env today apiKey title year mediaType sw1) e1

theorem queryOMDb_env (today apiKey title : String) (year mediaType : Option String) (sw : SW) :
    envSame (queryOMDb today apiKey title year mediaType sw).2.env sw.env := by
  unfold queryOMDb
  by_cases h1 : jsTruthy year && jsTruthy mediaType
  · simpa [h1] using exactSearch_env today apiKey title year mediaType sw
  · simp only [h1, if_false, Bool.false_eq_true]
    by_cases h2 : jsTruthy year
    · simpa [h2] using searchBothTypes_env today apiKey title year sw
    · simpa [h2] using smartSearch_env today apiKey title year mediaType sw

/-! ## Quota counting lemmas -/

theorem getApiCallCount_increment (env : Env) (today : String) :
    getApiCallCount (incrementApiCalls env today) today = getApiCallCount env today + 1 := by
  unfold getApiCallCount incrementApiCalls
  by_cases h : env.apiCallsDate == some today <;> simp [h]

/-! ## C2: quota increments per upstream call -/

/-- Claim C2 (amended): an upstream HTTP call is always logged, but the
daily counter rises by one exactly when the call yields a parsed JSON
response (including not-found and invalid-key bodies); a call that fails
with a timeout or a network/parse error leaves the counter unchanged. -/
theorem C2_amended_increment (today : String) (req : OmdbReq) (sw : SW) :
    (omdbFetch today req sw).2.log = sw.log ++ [req] ∧
    getApiCallCount (omdbFetch today req sw).2.env today =
      (match sw.script.head? with
       | some (FetchOutcome.ok _) => getApiCallCount sw.env today + 1
       | _ => getApiCallCount sw.env today) := by
  unfold omdbFetch
  rcases hs : sw.script with _ | ⟨o, rest⟩
  · simp [hs]
  · cases o with
    | ok d =>
      by_cases hik : isInvalidKeyData d
      · simp [hs, hik, getApiCallCount_increment]
      · simp [hs, hik, getApiCallCount_increment]
    | timeout => simp [hs]
    | netfail m => simp [hs]

/-- A state with quota remaining and a single scripted timeout. -/
def c2SW : SW := ⟨⟨[], some "k", none, none, none⟩, [FetchOutcome.timeout], []⟩

/-- Claim C2, counterexample: a call whose fetch times out is issued
(logged) but never increments the daily counter, refuting the claim that
every upstream call increments the counter regardless of outcome. -/
theorem C2_counterexample :
    (omdbFetch "d" (OmdbReq.exactQ "k" "Inception" none none) c2SW).2.log.length =
      c2SW.log.length + 1 ∧
    getApiCallCount (omdbFetch "d" (OmdbReq.exactQ "k" "Inception" none none) c2SW).2.env "d" =
      getApiCallCount c2SW.env "d" ∧
    (omdbFetch "d" (OmdbReq.exactQ "k" "Inception" none none) c2SW).1 =
      Except.error timeoutMsg := by
  exact ⟨rfl, rfl, rfl⟩

/-! ## C1: quota hard stop -/

/-- Claim C1 (amended): once the daily count has reached `API_DAILY_LIMIT`,
a `resolve()` call issues no upstream HTTP call at all, and — whenever it
misses the cache and a credential is configured — it returns the
`QuotaExceeded` structured error. (A cache hit still returns the cached
record, and a missing credential still returns `CredentialMissing`.) -/
theorem C1_quota_hard_stop (now : Nat) (today title : String) (year mediaType : Option String)
    (sw : SW) (hq : API_DAILY_LIMIT ≤ getApiCallCount sw.env today) :
    (handleFetchRating now today title year mediaType sw).2.log = sw.log ∧
    ((getCached now (cacheKeyOf title year mediaType) sw.env).1 = none →
      jsTruthy sw.env.apiKey = true →
      (handleFetchRating now today title year mediaType sw).1 = FetchResult.err quotaMsg) := by
  unfold handleFetchRating
  dsimp only
  rcases h : getCached now (cacheKeyOf title year mediaType) sw.env with ⟨copt, env2⟩
  cases copt with
  | some c =>
    refine ⟨rfl, ?_⟩
    intro hnone _
    simp at hnone
  | none =>
    obtain ⟨-, -, hak, hat, had, -⟩ := getCached_none now _ sw.env env2 h
    have hcount : getApiCallCount env2 today = getApiCallCount sw.env today := by
      unfold getApiCallCount
      rw [hat, had]
    simp only []
    by_cases hk : jsTruthy env2.apiKey
    · have hlim : API_DAILY_LIMIT ≤ getApiCallCount env2 today := by omega
      simp [hk, hlim]
    · refine ⟨?_, ?_⟩
      · simp [hk]
      · intro _ hkey
        rw [hak] at hk
        exact absurd hkey hk

/-- The cached record sitting in storage in the C1 counterexample. -/
def c1Entry : CacheVal :=
  CacheVal.rating (some "8.8") none (some "Inception") (some "2010") (some "movie")
    (some "tt1375666") 5

/-- A state at the daily limit whose cache already holds the queried key. -/
def c1SW : SW :=
  ⟨⟨[("rating_inception_2010_movie", c1Entry)], some "k", some 1000, some "d", none⟩, [], []⟩

set_option maxRecDepth 8000

/-- Claim C1, counterexample: at the daily limit, a `resolve()` call that
hits the cache returns the cached rating record, not the `QuotaExceeded`
error the claim promises for any further call. -/
theorem C1_counterexample :
    API_DAILY_LIMIT ≤ getApiCallCount c1SW.env "d" ∧
    (handleFetchRating 10 "d" "Inception" (some "2010") (some "movie") c1SW).1 =
      FetchResult.found c1Entry ∧
    (handleFetchRating 10 "d" "Inception" (some "2010") (some "movie") c1SW).1 ≠
      FetchResult.err quotaMsg := by
  refine ⟨by decide, by decide, by decide⟩

/-- Witness for the amended C1 at a concrete cache-missing state. -/
def c1MissSW : SW := ⟨⟨[], some "k", some 1000, some "d", none⟩, [], []⟩

theorem C1_quota_hard_stop_witness :
    (handleFetchRating 10 "d" "Inception" (some "2010") (some "movie") c1MissSW).2.log =
      c1MissSW.log ∧
    ((getCached 10 (cacheKeyOf "Inception" (some "2010") (some "movie")) c1MissSW.env).1 = none →
      jsTruthy c1MissSW.env.apiKey = true →
      (handleFetchRating 10 "d" "Inception" (some "2010") (some "movie") c1MissSW).1 =
        FetchResult.err quotaMsg) :=
  C1_quota_hard_stop 10 "d" "Inception" (some "2010") (some "movie") c1MissSW (by decide)

/-! ## C3: a timeout aborts the whole resolution -/

theorem omdbFetch_timeout (today : String) (req : OmdbReq) (sw : SW)
    (h : sw.script.head? = some FetchOutcome.timeout) :
    omdbFetch today req sw =
      (Except.error timeoutMsg, ⟨sw.env, sw.script.tail, sw.log ++ [req]⟩) := by
  unfold omdbFetch
  rcases hs : sw.script with _ | ⟨o, rest⟩
  · rw [hs] at h
    simp at h
  · rw [hs] at h
    simp only [List.head?] at h
    injection h with h
    subst h
    simp [hs]

theorem exactSearch_timeout (today apiKey title : String) (year typ : Option String) (sw : SW)
    (h : sw.script.head? = some FetchOutcome.timeout) :
    exactSearch today apiKey title year typ sw =
      (Except.error timeoutMsg,
        ⟨sw.env, sw.script.tail, sw.log ++ [OmdbReq.exactQ apiKey title year typ]⟩) := by
  unfold exactSearch
  rw [omdbFetch_timeout today _ sw h]

theorem searchBothTypes_timeout (today apiKey title : String) (year : Option String) (sw : SW)
    (h : sw.script.head? = some FetchOutcome.timeout) :
    searchBothTypes today apiKey title year sw =
      (Except.error timeoutMsg,
        ⟨sw.env, sw.script.tail, sw.log ++ [OmdbReq.exactQ apiKey title year (some "movie")]⟩) := by
  unfold searchBothTypes
  rw [exactSearch_timeout today apiKey title year (some "movie") sw h]

theorem smartSearch_timeout (today apiKey title : String) (year mediaType : Option String)
    (sw : SW) (h : sw.script.head? = some FetchOutcome.timeout) :
    smartSearch today apiKey title year mediaType sw =
      (Except.error timeoutMsg,
        ⟨sw.env, sw.script.tail,
          sw.log ++ [OmdbReq.exactQ apiKey title year (some (jsOrStr mediaType "movie"))]⟩) := by
  unfold smartSearch
  dsimp only
  rw [exactSearch_timeout today apiKey title year (some (jsOrStr mediaType "movie")) sw h]

theorem queryOMDb_timeout (today apiKey title : String) (year mediaType : Option String)
    (sw : SW) (h : sw.script.head? = some FetchOutcome.timeout) :
    (queryOMDb today apiKey title year mediaType sw).1 = Except.error timeoutMsg ∧
    (queryOMDb today apiKey title year mediaType sw).2.log.length = sw.log.length + 1 ∧
    (queryOMDb today apiKey title year mediaType sw).2.env = sw.env := by
  unfold queryOMDb
  by_cases h1 : jsTruthy year && jsTruthy mediaType
  · simp [h1, exactSearch_timeout today apiKey title year mediaType sw h]
  · simp only [h1, if_false, Bool.false_eq_true]
    by_cases h2 : jsTruthy year
    · simp [h2, searchBothTypes_timeout today apiKey title year sw h]
    · simp [h2, smartSearch_timeout today apiKey title year mediaType sw h]

/-- Claim C3 (amended): when the first upstream call of a resolution times
out, the whole resolution aborts: the timeout error is returned to the
caller, exactly one HTTP call was issued (no fallback step runs), and
nothing is written to the cache. -/
theorem C3_timeout_aborts (now : Nat) (today title : String) (year mediaType : Option String)
    (sw : SW)
    (hmiss : (getCached now (cacheKeyOf title year mediaType) sw.env).1 = none)
    (hkey : jsTruthy sw.env.apiKey = true)
    (hquota : getApiCallCount sw.env today < API_DAILY_LIMIT)
    (hto : sw.script.head? = some FetchOutcome.timeout) :
    (handleFetchRating now today title year mediaType sw).1 = FetchResult.err timeoutMsg ∧
    (handleFetchRating now today title year mediaType sw).2.log.length = sw.log.length + 1 ∧
    (handleFetchRating now today title year mediaType sw).2.env.cache =
      (getCached now (cacheKeyOf title year mediaType) sw.env).2.cache := by
  unfold handleFetchRating
  dsimp only
  rcases h : getCached now (cacheKeyOf title year mediaType) sw.env with ⟨copt, env2⟩
  cases copt with
  | some c =>
    rw [h] at hmiss
    simp at hmiss
  | none =>
    obtain ⟨-, -, hak, hat, had, -⟩ := getCached_none now _ sw.env env2 h
    have hkey2 : jsTruthy env2.apiKey = true := by rw [hak]; exact hkey
    have hcount : getApiCallCount env2 today = getApiCallCount sw.env today := by
      unfold getApiCallCount
      rw [hat, had]
    have hnot : ¬ API_DAILY_LIMIT ≤ getApiCallCount env2 today := by omega
    simp only [hkey2, Bool.not_true, Bool.false_eq_true, if_false, hnot]
    rcases hq : queryOMDb today (env2.apiKey.getD "") title year mediaType
        ⟨env2, sw.script, sw.log⟩ with ⟨r, sw2⟩
    have hqt := queryOMDb_timeout today (env2.apiKey.getD "") title year mediaType
      ⟨env2, sw.script, sw.log⟩ hto
    rw [hq] at hqt
    obtain ⟨hr, hlen, henv⟩ := hqt
    subst hr
    refine ⟨by trivial, by simpa using hlen, ?_⟩
    simp only [] at henv
    rw [henv]

/-- A full OMDb record the series fallback call would have returned. -/
def c3Movie : OmdbData :=
  ⟨some "True", none, some "Inception", some "2010", some "movie", some "tt1", some "8.8",
    none, none, none⟩

/-- Quota available, first scripted response a timeout, second a success
that the series fallback step would consume. -/
def c3SW : SW := ⟨⟨[], some "k", none, none, none⟩, [FetchOutcome.timeout, FetchOutcome.ok c3Movie], []⟩

/-- Claim C3, counterexample: with a year but no media type, the movie
call times out while the series fallback response is waiting in the
script; the resolver does not proceed to that next step as the claim
states — it returns the timeout error after a single HTTP call, leaving
the fallback response unconsumed. -/
theorem C3_counterexample :
    (handleFetchRating 5 "d" "Inception" (some "2010") none c3SW).1 =
      FetchResult.err timeoutMsg ∧
    (handleFetchRating 5 "d" "Inception" (some "2010") none c3SW).2.log.length = 1 ∧
    (handleFetchRating 5 "d" "Inception" (some "2010") none c3SW).2.script =
      [FetchOutcome.ok c3Movie] := by
  exact ⟨rfl, rfl, rfl⟩

theorem C3_timeout_aborts_witness :
    (handleFetchRating 5 "d" "Inception" (some "2010") none c3SW).1 =
      FetchResult.err timeoutMsg ∧
    (handleFetchRating 5 "d" "Inception" (some "2010") none c3SW).2.log.length =
      c3SW.log.length + 1 ∧
    (handleFetchRating 5 "d" "Inception" (some "2010") none c3SW).2.env.cache =
      (getCached 5 (cacheKeyOf "Inception" (some "2010") none) c3SW.env).2.cache :=
  C3_timeout_aborts 5 "d" "Inception" (some "2010") none c3SW (by decide) (by decide)
    (by decide) (by decide)

/-! ## C8: cache-key equivalence -/

/-- Claim C8 (amended): two titles with the same lowercasing (differing
only by letter case) map to the same cache key for identical year and
media type; leading/trailing whitespace, by contrast, is preserved into
the key (see the counterexample). -/
theorem C8_key_case_insensitive (t1 t2 : String) (year mediaType : Option String)
    (h : lowerStr t1 = lowerStr t2) :
    cacheKeyOf t1 year mediaType = cacheKeyOf t2 year mediaType := by
  unfold cacheKeyOf
  rw [h]

/-- Claim C8, counterexample: a title with a leading space maps to a
different cache key than the trimmed title, refuting the claimed
whitespace-insensitivity of the key. -/
theorem C8_counterexample :
    cacheKeyOf " Inception" (some "2010") (some "movie") ≠
      cacheKeyOf "Inception" (some "2010") (some "movie") ∧
    cacheKeyOf "INCEPTION" (some "2010") (some "movie") =
      cacheKeyOf "Inception" (some "2010") (some "movie") := by
  refine ⟨by decide, by decide⟩

theorem C8_key_case_insensitive_witness :
    cacheKeyOf "InCePtIoN" (some "2010") (some "movie") =
      cacheKeyOf "inception" (some "2010") (some "movie") :=
  C8_key_case_insensitive "InCePtIoN" "inception" (some "2010") (some "movie") (by decide)

/-! ## C6: pickBest maximizes the score, first maximum wins -/

theorem titleSimilarity_nonneg (q r : String) : 0 ≤ titleSimilarity q r := by
  unfold titleSimilarity
  dsimp only
  split_ifs
  · norm_num
  · norm_num
  · positivity
  · norm_num
  · positivity

theorem simScore_nonneg (qt : String) (c : Cand) : 0 ≤ simScore qt c :=
  mul_nonneg (titleSimilarity_nonneg qt (jsOrStr c.Title "")) (by norm_num)

theorem yearScore_nonneg (qy : Option String) (c : Cand) : 0 ≤ yearScore qy c := by
  unfold yearScore
  split
  · rcases jsParseInt ((c.Year).getD "") with _ | cy
    · norm_num
    · rcases jsParseInt (qy.getD "") with _ | ty
      · norm_num
      · dsimp only
        split_ifs <;> norm_num
  · norm_num

theorem ratingScore_nonneg (c : Cand) : 0 ≤ ratingScore c := by
  unfold ratingScore
  split_ifs <;> norm_num

theorem posterScore_nonneg (c : Cand) : 0 ≤ posterScore c := by
  unfold posterScore
  split_ifs <;> norm_num

theorem movieScore_nonneg (c : Cand) : 0 ≤ movieScore c := by
  unfold movieScore
  split_ifs <;> norm_num

theorem scoreOf_nonneg (qt : String) (qy : Option String) (c : Cand) : 0 ≤ scoreOf qt qy c := by
  unfold scoreOf
  have h1 := simScore_nonneg qt c
  have h2 := yearScore_nonneg qy c
  have h3 := ratingScore_nonneg c
  have h4 := posterScore_nonneg c
  have h5 := movieScore_nonneg c
  linarith

theorem pickBestAux_spec {α : Type} (qt : String) (qy : Option String) (view : α → Cand)
    (rest : List α) : ∀ (bs : Rat) (bc : Option α),
    (pickBestAux qt qy view rest bs bc = bc ∧
      ∀ c ∈ rest, scoreOf qt qy (view c) ≤ bs) ∨
    (∃ i, ∃ h : i < rest.length,
      pickBestAux qt qy view rest bs bc = some (rest.get ⟨i, h⟩) ∧
      bs < scoreOf qt qy (view (rest.get ⟨i, h⟩)) ∧
      (∀ j, ∀ hj : j < rest.length,
        scoreOf qt qy (view (rest.get ⟨j, hj⟩)) ≤ scoreOf qt qy (view (rest.get ⟨i, h⟩))) ∧
      (∀ j, ∀ hj : j < i,
        scoreOf qt qy (view (rest.get ⟨j, Nat.lt_trans hj h⟩)) <
          scoreOf qt qy (view (rest.get ⟨i, h⟩)))) := by
  induction rest with
  | nil =>
    intro bs bc
    left
    exact ⟨rfl, by simp⟩
  | cons c rest ih =>
    intro bs bc
    have hred : pickBestAux qt qy view (c :: rest) bs bc =
        if bs < scoreOf qt qy (view c) then
          pickBestAux qt qy view rest (scoreOf qt qy (view c)) (some c)
        else pickBestAux qt qy view rest bs bc := rfl
    by_cases hlt : bs < scoreOf qt qy (view c)
    · rcases ih (scoreOf qt qy (view c)) (some c) with ⟨heq, hall⟩ | ⟨i, hi, heq, hgt, hmax, hfirst⟩
      · right
        refine ⟨0, Nat.succ_pos _, ?_, hlt, ?_, ?_⟩
        · rw [hred, if_pos hlt, heq]
          rfl
        · intro j hj
          cases j with
          | zero => exact le_refl _
          | succ j =>
            exact hall _ (List.get_mem rest _ _)
        · intro j hj
          exact absurd hj (Nat.not_lt_zero j)
      · right
        refine ⟨i + 1, Nat.succ_lt_succ hi, ?_, ?_, ?_, ?_⟩
        · rw [hred, if_pos hlt, heq]
          rfl
        · exact lt_trans hlt hgt
        · intro j hj
          cases j with
          | zero => exact le_of_lt hgt
          | succ j => exact hmax j (Nat.lt_of_succ_lt_succ hj)
        · intro j hj
          cases j with
          | zero => exact hgt
          | succ j => exact hfirst j (Nat.lt_of_succ_lt_succ hj)
    · rcases ih bs bc with ⟨heq, hall⟩ | ⟨i, hi, heq, hgt, hmax, hfirst⟩
      · left
        refine ⟨by rw [hred, if_neg hlt, heq], ?_⟩
        intro c' hc'
        rcases List.mem_cons.1 hc' with h | h
        · rw [h]
          exact le_of_not_lt hlt
        · exact hall c' h
      · right
        refine ⟨i + 1, Nat.succ_lt_succ hi, ?_, ?_, ?_, ?_⟩
        · rw [hred, if_neg hlt, heq]
          rfl
        · exact lt_of_le_of_lt (by linarith [scoreOf_nonneg qt qy (view c)]) hgt
        · intro j hj
          cases j with
          | zero => exact le_of_lt (lt_of_le_of_lt (le_of_not_lt hlt) hgt)
          | succ j => exact hmax j (Nat.lt_of_succ_lt_succ hj)
        · intro j hj
          cases j with
          | zero => exact lt_of_le_of_lt (le_of_not_lt hlt) hgt
          | succ j => exact hfirst j (Nat.lt_of_succ_lt_succ hj)

/-- Claim C6: for every non-empty candidate list the selected candidate
maximizes the weighted score, and ties are broken by input order — the
returned candidate is the first one attaining the maximal score (every
strictly earlier candidate scores strictly lower). The singleton case is
returned without scoring and satisfies both properties trivially. -/
theorem C6_pickBest_maximal (qt : String) (qy : Option String) (cands : List Cand)
    (hne : cands ≠ []) :
    ∃ i, ∃ h : i < cands.length,
      pickBest qt qy (fun c => c) cands = some (cands.get ⟨i, h⟩) ∧
      (∀ j, ∀ hj : j < cands.length,
        scoreOf qt qy (cands.get ⟨j, hj⟩) ≤ scoreOf qt qy (cands.get ⟨i, h⟩)) ∧
      (∀ j, ∀ hj : j < i,
        scoreOf qt qy (cands.get ⟨j, Nat.lt_trans hj h⟩) <
          scoreOf qt qy (cands.get ⟨i, h⟩)) := by
  match cands with
  | [] => exact absurd rfl hne
  | [c] =>
    refine ⟨0, Nat.succ_pos _, rfl, ?_, ?_⟩
    · intro j hj
      have hj0 : j = 0 := by
        simp only [List.length_singleton] at hj
        omega
      subst hj0
      exact le_refl _
    · intro j hj
      exact absurd hj (Nat.not_lt_zero j)
  | c1 :: c2 :: rest =>
    have hred : pickBest qt qy (fun c => c) (c1 :: c2 :: rest) =
        pickBestAux qt qy (fun c => c) (c1 :: c2 :: rest) (-1) none := rfl
    rcases pickBestAux_spec qt qy (fun c => c) (c1 :: c2 :: rest) (-1) none with
      ⟨heq, hall⟩ | ⟨i, hi, heq, hgt, hmax, hfirst⟩
    · exfalso
      have h1 := hall c1 (List.mem_cons_self _ _)
      have h0 := scoreOf_nonneg qt qy c1
      simp only at h1
      linarith
    · exact ⟨i, hi, by rw [hred]; exact heq, hmax, hfirst⟩

/-- The two candidates of the scoring-determinism example in the spec. -/
def officeA : Cand := ⟨some "The Office", some "2001", some "series", none, none, some "tt1"⟩

def officeB : Cand :=
  ⟨some "The Office", some "2005", some "series", some "8.9", some "poster", some "tt2"⟩

theorem C6_pickBest_maximal_witness :
    ∃ i, ∃ h : i < ([officeA, officeB] : List Cand).length,
      pickBest "The Office" (some "2005") (fun c => c) [officeA, officeB] =
        some (([officeA, officeB] : List Cand).get ⟨i, h⟩) ∧
      (∀ j, ∀ hj : j < ([officeA, officeB] : List Cand).length,
        scoreOf "The Office" (some "2005") (([officeA, officeB] : List Cand).get ⟨j, hj⟩) ≤
          scoreOf "The Office" (some "2005") (([officeA, officeB] : List Cand).get ⟨i, h⟩)) ∧
      (∀ j, ∀ hj : j < i,
        scoreOf "The Office" (some "2005")
            (([officeA, officeB] : List Cand).get ⟨j, Nat.lt_trans hj h⟩) <
          scoreOf "The Office" (some "2005") (([officeA, officeB] : List Cand).get ⟨i, h⟩)) :=
  C6_pickBest_maximal "The Office" (some "2005") [officeA, officeB] (by decide)

/-! ## C7: ratingless records cache as misses, rated ones as ratings -/

/-- Claim C7: when an upstream record is obtained on a cache miss, the
resolver writes and returns a miss record (`notFound: true`) exactly when
the record carries neither a usable IMDb rating (absent, empty or `N/A`)
nor a Rotten Tomatoes value; otherwise it writes and returns the
normalized rating record. The written entry is readable under the query
key afterwards. -/
theorem C7_processAndCache (now : Nat) (key : String) (d : OmdbData) (env : Env)
    (hnow : 0 < now)
    (hold : ∀ p ∈ env.cache, p.2.cachedAt < now)
    (hfresh : getKey env.cache key = none) :
    ((!jsTruthy (if d.imdbRating == some "N/A" then none else d.imdbRating) &&
        !jsTruthy (extractRT d.Ratings)) = true →
      (processAndCache now key d env).1 = CacheVal.miss d.Title now ∧
      (processAndCache now key d env).1.isMiss = true ∧
      getKey (processAndCache now key d env).2.cache key =
        some (CacheVal.miss d.Title now)) ∧
    ((!jsTruthy (if d.imdbRating == some "N/A" then none else d.imdbRating) &&
        !jsTruthy (extractRT d.Ratings)) = false →
      (processAndCache now key d env).1 =
        CacheVal.rating (if d.imdbRating == some "N/A" then none else d.imdbRating)
          (extractRT d.Ratings) d.Title d.Year d.typ d.imdbID now ∧
      (processAndCache now key d env).1.isMiss = false ∧
      getKey (processAndCache now key d env).2.cache key =
        some (CacheVal.rating (if d.imdbRating == some "N/A" then none else d.imdbRating)
          (extractRT d.Ratings) d.Title d.Year d.typ d.imdbID now)) := by
  unfold processAndCache
  dsimp only
  by_cases hcond : (!jsTruthy (if d.imdbRating == some "N/A" then none else d.imdbRating) &&
      !jsTruthy (extractRT d.Ratings)) = true
  · rw [if_pos hcond]
    constructor
    · intro _
      refine ⟨rfl, rfl, ?_⟩
      exact getKey_writeCache_fresh now key (CacheVal.miss d.Title now) env hfresh hold rfl hnow
    · intro hfalse
      rw [hcond] at hfalse
      exact absurd hfalse (by simp)
  · rw [if_neg hcond]
    constructor
    · intro htrue
      exact absurd htrue hcond
    · intro _
      refine ⟨rfl, rfl, ?_⟩
      exact getKey_writeCache_fresh now key
        (CacheVal.rating (if d.imdbRating == some "N/A" then none else d.imdbRating)
          (extractRT d.Ratings) d.Title d.Year d.typ d.imdbID now) env hfresh hold rfl hnow

/-- A record found upstream but carrying `imdbRating: "N/A"` and no
Rotten Tomatoes entry. -/
def c7Ratingless : OmdbData :=
  ⟨some "True", none, some "Obscure Short", some "1999", some "movie", some "tt7",
    some "N/A", none, some [], none⟩

theorem C7_processAndCache_witness :
    ((!jsTruthy (if c7Ratingless.imdbRating == some "N/A" then none
          else c7Ratingless.imdbRating) &&
        !jsTruthy (extractRT c7Ratingless.Ratings)) = true →
      (processAndCache 9 "rating_obscure short_1999_movie" c7Ratingless
          ⟨[], some "k", none, none, none⟩).1 = CacheVal.miss c7Ratingless.Title 9 ∧
      (processAndCache 9 "rating_obscure short_1999_movie" c7Ratingless
          ⟨[], some "k", none, none, none⟩).1.isMiss = true ∧
      getKey (processAndCache 9 "rating_obscure short_1999_movie" c7Ratingless
          ⟨[], some "k", none, none, none⟩).2.cache "rating_obscure short_1999_movie" =
        some (CacheVal.miss c7Ratingless.Title 9)) ∧
    ((!jsTruthy (if c7Ratingless.imdbRating == some "N/A" then none
          else c7Ratingless.imdbRating) &&
        !jsTruthy (extractRT c7Ratingless.Ratings)) = false →
      (processAndCache 9 "rating_obscure short_1999_movie" c7Ratingless
          ⟨[], some "k", none, none, none⟩).1 =
        CacheVal.rating (if c7Ratingless.imdbRating == some "N/A" then none
            else c7Ratingless.imdbRating)
          (extractRT c7Ratingless.Ratings) c7Ratingless.Title c7Ratingless.Year
          c7Ratingless.typ c7Ratingless.imdbID 9 ∧
      (processAndCache 9 "rating_obscure short_1999_movie" c7Ratingless
          ⟨[], some "k", none, none, none⟩).1.isMiss = false ∧
      getKey (processAndCache 9 "rating_obscure short_1999_movie" c7Ratingless
          ⟨[], some "k", none, none, none⟩).2.cache "rating_obscure short_1999_movie" =
        some (CacheVal.rating (if c7Ratingless.imdbRating == some "N/A" then none
            else c7Ratingless.imdbRating)
          (extractRT c7Ratingless.Ratings) c7Ratingless.Title c7Ratingless.Year
          c7Ratingless.typ c7Ratingless.imdbID 9)) :=
  C7_processAndCache 9 "rating_obscure short_1999_movie" c7Ratingless
    ⟨[], some "k", none, none, none⟩ (by decide) (by decide) (by decide)

/-! ## C5: idempotence within the TTL -/

theorem processAndCache_self (now : Nat) (key : String) (d : OmdbData) (env : Env)
    (hnow : 0 < now)
    (hold : ∀ p ∈ env.cache, p.2.cachedAt < now)
    (hfresh : getKey env.cache key = none) :
    getKey (processAndCache now key d env).2.cache key =
      some (processAndCache now key d env).1 := by
  unfold processAndCache
  dsimp only
  split <;> split <;>
    exact getKey_writeCache_fresh now key _ env hfresh hold rfl hnow

theorem getCached_hit (now : Nat) (key : String) (env : Env) (v : CacheVal)
    (hget : getKey env.cache key = some v)
    (httl : ¬ CACHE_TTL_MS < now - v.cachedAt) :
    getCached now key env = (some v, env) := by
  unfold getCached
  rw [hget]
  simp only []
  rw [if_neg httl]

theorem handleFetchRating_caches (now : Nat) (today title : String)
    (year mediaType : Option String) (sw : SW) (v : CacheVal) (sw1 : SW)
    (hnow : 0 < now)
    (hold : ∀ p ∈ sw.env.cache, p.2.cachedAt < now)
    (h : handleFetchRating now today title year mediaType sw = (FetchResult.found v, sw1)) :
    getKey sw1.env.cache (cacheKeyOf title year mediaType) = some v := by
  unfold handleFetchRating at h
  dsimp only at h
  rcases hc : getCached now (cacheKeyOf title year mediaType) sw.env with ⟨copt, env2⟩
  rw [hc] at h
  cases copt with
  | some c =>
    simp only [Prod.mk.injEq, FetchResult.found.injEq] at h
    obtain ⟨hv, hsw⟩ := h
    obtain ⟨henv, hget, -⟩ := getCached_some now _ sw.env c env2 hc
    subst hv
    rw [← hsw]
    rw [henv]
    exact hget
  | none =>
    obtain ⟨hfresh2, hsub, hak, hat, had, -⟩ := getCached_none now _ sw.env env2 hc
    have hold2 : ∀ p ∈ env2.cache, p.2.cachedAt < now :=
      fun p hp => hold p (hsub.subset hp)
    simp only [] at h
    by_cases hk : jsTruthy env2.apiKey
    · rw [if_neg (by simp [hk])] at h
      by_cases hq : API_DAILY_LIMIT ≤ getApiCallCount env2 today
      · rw [if_pos hq] at h
        simp at h
      · rw [if_neg hq] at h
        rcases hqo : queryOMDb today (env2.apiKey.getD "") title year mediaType
            ⟨env2, sw.script, sw.log⟩ with ⟨r, sw2⟩
        rw [hqo] at h
        have hqenv := queryOMDb_env today (env2.apiKey.getD "") title year mediaType
          ⟨env2, sw.script, sw.log⟩
        rw [hqo] at hqenv
        have hcache2 : sw2.env.cache = env2.cache := hqenv.1
        cases r with
        | error e => simp at h
        | ok od =>
          cases od with
          | some d =>
            simp only [Prod.mk.injEq, FetchResult.found.injEq] at h
            obtain ⟨hv, hsw⟩ := h
            subst hv
            rw [← hsw]
            simp only []
            exact processAndCache_self now _ d sw2.env hnow
              (by rw [hcache2]; exact hold2) (by rw [hcache2]; exact hfresh2)
          | none =>
            simp only [Prod.mk.injEq, FetchResult.found.injEq] at h
            obtain ⟨hv, hsw⟩ := h
            subst hv
            rw [← hsw]
            simp only []
            exact getKey_writeCache_fresh now _ (CacheVal.miss (some title) now) sw2.env
              (by rw [hcache2]; exact hfresh2) (by rw [hcache2]; exact hold2) rfl hnow
    · have hkf : jsTruthy env2.apiKey = false := by
        cases hb : jsTruthy env2.apiKey
        · rfl
        · exact absurd hb hk
      rw [if_pos (by simp [hkf])] at h
      simp at h

/-- Claim C5: a resolution that completes with a rating or miss record
leaves that record in the cache under the query key; resolving the
identical query again while the entry is within the TTL returns exactly
the cached record and leaves the worker state untouched — in particular
the request log does not grow, so zero upstream HTTP calls are issued,
whatever responses the network would have given (`script2` arbitrary). -/
theorem C5_idempotent (now1 : Nat) (today1 title : String)
    (year mediaType : Option String) (sw : SW) (v : CacheVal) (sw1 : SW)
    (now2 : Nat) (today2 : String) (script2 : List FetchOutcome)
    (hnow : 0 < now1)
    (hold : ∀ p ∈ sw.env.cache, p.2.cachedAt < now1)
    (h1 : handleFetchRating now1 today1 title year mediaType sw = (FetchResult.found v, sw1))
    (httl : ¬ CACHE_TTL_MS < now2 - v.cachedAt) :
    handleFetchRating now2 today2 title year mediaType ⟨sw1.env, script2, sw1.log⟩ =
      (FetchResult.found v, ⟨sw1.env, script2, sw1.log⟩) := by
  have hkey := handleFetchRating_caches now1 today1 title year mediaType sw v sw1 hnow hold h1
  unfold handleFetchRating
  dsimp only
  rw [getCached_hit now2 _ sw1.env v hkey httl]

/-- The upstream record of the C5 witness run. -/
def c5Data : OmdbData :=
  ⟨some "True", none, some "Inception", some "2010", some "movie", some "tt1375666",
    some "8.8", none, none, none⟩

/-- Initial state of the C5 witness run: empty cache, key configured. -/
def c5SW : SW := ⟨⟨[], some "k", none, none, none⟩, [FetchOutcome.ok c5Data], []⟩

/-- The record the first C5 resolution caches. -/
def c5Rec : CacheVal :=
  CacheVal.rating (some "8.8") none (some "Inception") (some "2010") (some "movie")
    (some "tt1375666") 5

/-- The worker state after the first C5 resolution. -/
def c5SW1 : SW :=
  ⟨⟨[("rating_inception_2010_movie", c5Rec)], some "k", some 1, some "today", some 1⟩, [],
    [OmdbReq.exactQ "k" "Inception" (some "2010") (some "movie")]⟩

theorem C5_idempotent_witness :
    handleFetchRating 6 "today" "Inception" (some "2010") (some "movie")
        ⟨c5SW1.env, [], c5SW1.log⟩ =
      (FetchResult.found c5Rec, ⟨c5SW1.env, [], c5SW1.log⟩) :=
  C5_idempotent 5 "today" "Inception" (some "2010") (some "movie") c5SW c5Rec c5SW1
    6 "today" [] (by decide) (by decide) (by decide) (by decide)

/-! ## C4: cache size bound -/

/-- The count the claim bounds: storage entries whose key carries the
`rating_` prefix. -/
def ratingKeyCount (cache : List (String × CacheVal)) : Nat :=
  (cache.filter (fun e => hasRatingPre e.1)).length

theorem mem_pruneRemovalKeys_of_expired (now : Nat) (cache : List (String × CacheVal))
    (e : String × CacheVal) (he : e ∈ cache) (hexp : entExpired now e = true) :
    e.1 ∈ pruneRemovalKeys now cache := by
  unfold pruneRemovalKeys
  have hmem : e ∈ cache.filter (entExpired now) := List.mem_filter.mpr ⟨he, hexp⟩
  by_cases hover : MAX_CACHE_SIZE < (cache.filter (entValid now)).length
  · rw [if_pos hover]
    exact List.mem_append_left _ (List.mem_map.mpr ⟨e, hmem, rfl⟩)
  · rw [if_neg hover]
    exact List.mem_map.mpr ⟨e, hmem, rfl⟩

theorem contains_eq_true_of_mem {l : List String} {a : String} (h : a ∈ l) :
    l.contains a = true := by
  simpa using h

/-- Claim C4, pruning bound: one `pruneCache()` run leaves at most
`MAX_CACHE_SIZE` entries with the `rating_` prefix. -/
theorem ratingKeyCount_pruneList_le (now : Nat) (cache : List (String × CacheVal)) :
    ratingKeyCount (pruneList now cache) ≤ MAX_CACHE_SIZE := by
  unfold ratingKeyCount pruneList delKeys
  rw [List.filter_filter]
  have hcong : cache.filter
      (fun e => hasRatingPre e.1 && !((pruneRemovalKeys now cache).contains e.1)) =
      cache.filter
      (fun e => entValid now e && !((pruneRemovalKeys now cache).contains e.1)) := by
    apply List.filter_congr
    intro e he
    by_cases hpre : hasRatingPre e.1
    · by_cases hexp : expiredB now e.2
      · have hkeymem := mem_pruneRemovalKeys_of_expired now cache e he
          (by simp [entExpired, hpre, hexp])
        simp [entValid, hpre, hexp, hkeymem]
      · simp [entValid, hpre, hexp]
    · simp [entValid, hpre]
  rw [hcong]
  have hsplit : cache.filter
      (fun e => entValid now e && !((pruneRemovalKeys now cache).contains e.1)) =
      (cache.filter (entValid now)).filter
      (fun e => !((pruneRemovalKeys now cache).contains e.1)) := by
    rw [List.filter_filter]
    apply List.filter_congr
    intro e _
    exact Bool.and_comm _ _
  rw [hsplit]
  by_cases hover : MAX_CACHE_SIZE < (cache.filter (entValid now)).length
  · have hperm := (List.mergeSort_perm (cache.filter (entValid now)) byAge).filter
      (fun e => !((pruneRemovalKeys now cache).contains e.1))
    rw [← hperm.length_eq]
    rw [← List.take_append_drop ((cache.filter (entValid now)).length - MAX_CACHE_SIZE)
      ((cache.filter (entValid now)).mergeSort byAge), List.filter_append, List.length_append]
    have hT : (((cache.filter (entValid now)).mergeSort byAge).take
        ((cache.filter (entValid now)).length - MAX_CACHE_SIZE)).filter
        (fun e => !((pruneRemovalKeys now cache).contains e.1)) = [] := by
      rw [List.filter_eq_nil_iff]
      intro a ha
      have hamem : a.1 ∈ pruneRemovalKeys now cache := by
        unfold pruneRemovalKeys
        rw [if_pos hover]
        exact List.mem_append_right _ (List.mem_map.mpr ⟨a, ha, rfl⟩)
      simp [hamem]
    rw [hT]
    simp only [List.length_nil, Nat.zero_add]
    have hK := List.length_filter_le
      (fun e => !((pruneRemovalKeys now cache).contains e.1))
      (((cache.filter (entValid now)).mergeSort byAge).drop
        ((cache.filter (entValid now)).length - MAX_CACHE_SIZE))
    have hKlen : (((cache.filter (entValid now)).mergeSort byAge).drop
        ((cache.filter (entValid now)).length - MAX_CACHE_SIZE)).length = MAX_CACHE_SIZE := by
      rw [List.length_drop, List.length_mergeSort]
      omega
    omega
  · have h1 := List.length_filter_le
      (fun e => !((pruneRemovalKeys now cache).contains e.1)) (cache.filter (entValid now))
    omega

/-- Claim C4, eviction order: with distinct storage keys, any valid entry
removed by a prune is at least as old (by `cachedAt`) as every valid
entry the prune keeps. -/
theorem pruneList_oldest_first (now : Nat) (cache : List (String × CacheVal))
    (hnd : (cache.map Prod.fst).Nodup) :
    ∀ e ∈ cache, entValid now e = true → e ∉ pruneList now cache →
    ∀ f ∈ cache, entValid now f = true → f ∈ pruneList now cache →
    e.2.cachedAt ≤ f.2.cachedAt := by
  intro e he hev heout f hf hfv hfin
  have hinj := List.inj_on_of_nodup_map hnd
  have hpe : (!((pruneRemovalKeys now cache).contains e.1)) = false := by
    by_contra hne
    have : e ∈ pruneList now cache := by
      unfold pruneList delKeys
      exact List.mem_filter.mpr ⟨he, by revert hne; cases ((pruneRemovalKeys now cache).contains e.1) <;> simp⟩
    exact heout this
  have hemem : e.1 ∈ pruneRemovalKeys now cache := by
    revert hpe
    cases hc : (pruneRemovalKeys now cache).contains e.1
    · simp
    · intro _
      simpa using hc
  have hnotexp : ¬ e.1 ∈ (cache.filter (entExpired now)).map (·.1) := by
    intro hmem
    rcases List.mem_map.1 hmem with ⟨g, hg, hgk⟩
    have hgc := (List.mem_filter.1 hg).1
    have hgx := (List.mem_filter.1 hg).2
    have : g = e := hinj hgc he hgk
    rw [this] at hgx
    unfold entExpired at hgx
    unfold entValid at hev
    rw [Bool.and_eq_true] at hgx
    rw [Bool.and_eq_true] at hev
    obtain ⟨-, hx⟩ := hgx
    obtain ⟨-, hv⟩ := hev
    rw [hx] at hv
    simp at hv
  unfold pruneRemovalKeys at hemem
  by_cases hover : MAX_CACHE_SIZE < (cache.filter (entValid now)).length
  · rw [if_pos hover] at hemem
    rcases List.mem_append.1 hemem with h1 | h2
    · exact absurd h1 hnotexp
    · rcases List.mem_map.1 h2 with ⟨a, ha, hak⟩
      have haV : a ∈ cache.filter (entValid now) :=
        ((List.mergeSort_perm _ byAge).mem_iff).1 (List.mem_of_mem_take ha)
      have haC := (List.mem_filter.1 haV).1
      have hae : a = e := hinj haC he hak
      rw [hae] at ha
      have hfV : f ∈ cache.filter (entValid now) := List.mem_filter.mpr ⟨hf, hfv⟩
      have hfS : f ∈ (cache.filter (entValid now)).mergeSort byAge :=
        ((List.mergeSort_perm _ byAge).mem_iff).2 hfV
      rw [← List.take_append_drop ((cache.filter (entValid now)).length - MAX_CACHE_SIZE)
        ((cache.filter (entValid now)).mergeSort byAge)] at hfS
      rcases List.mem_append.1 hfS with hfT | hfK
      · exfalso
        have hfmem : f.1 ∈ pruneRemovalKeys now cache := by
          unfold pruneRemovalKeys
          rw [if_pos hover]
          exact List.mem_append_right _ (List.mem_map.mpr ⟨f, hfT, rfl⟩)
        have : f ∉ pruneList now cache := by
          unfold pruneList delKeys
          intro hmem
          have := (List.mem_filter.1 hmem).2
          simp [hfmem] at this
        exact this hfin
      · have hsort : List.Pairwise (fun a b => byAge a b = true)
            ((cache.filter (entValid now)).mergeSort byAge) :=
          List.sorted_mergeSort byAge_trans byAge_total _
        have hTK := List.take_append_drop
          ((cache.filter (entValid now)).length - MAX_CACHE_SIZE)
          ((cache.filter (entValid now)).mergeSort byAge)
        have hpw := (List.pairwise_append.1 (by rw [hTK]; exact hsort)).2.2
        have := hpw e ha f hfK
        exact of_decide_eq_true this
  · rw [if_neg hover] at hemem
    exact absurd hemem hnotexp

/-- Claim C4 (amended): the size bound is enforced only by the writes
that trigger a prune (every `PRUNE_INTERVAL`-th write): such a write
leaves at most `MAX_CACHE_SIZE` `rating_` entries, and — with distinct
storage keys — the valid entries it evicts for size are all at least as
old as every valid entry it keeps. Between prunes the bound may be
exceeded (see the counterexample). -/
theorem C4_prune_bound (now : Nat) (key : String) (v : CacheVal) (env : Env)
    (htrig : PRUNE_INTERVAL ≤ env.pruneCounter.getD 0 + 1)
    (hnd : (env.cache.map Prod.fst).Nodup) :
    ratingKeyCount (writeCache now key v env).cache ≤ MAX_CACHE_SIZE ∧
    (∀ e ∈ setKey env.cache key v, entValid now e = true →
      e ∉ (writeCache now key v env).cache →
      ∀ f ∈ setKey env.cache key v, entValid now f = true →
        f ∈ (writeCache now key v env).cache →
        e.2.cachedAt ≤ f.2.cachedAt) := by
  have hred : (writeCache now key v env).cache =
      pruneList now (setKey env.cache key v) := by
    unfold writeCache
    rw [if_pos htrig]
    rfl
  rw [hred]
  exact ⟨ratingKeyCount_pruneList_le now (setKey env.cache key v),
    pruneList_oldest_first now (setKey env.cache key v) (setKey_map_fst_nodup _ _ _ hnd)⟩

/-- Key family for the C4 counterexample: `rating_` followed by `i`
repetitions of `a`; keys of distinct index have distinct lengths. -/
def mkKey (i : Nat) : String := CACHE_KEY_PREFIX ++ String.mk (List.replicate i 'a')

/-- A cache of `n` distinct fresh `rating_` entries. -/
def mkEntries (n : Nat) : List (String × CacheVal) :=
  (List.range n).map (fun i => (mkKey i, CacheVal.miss none (i + 1)))

theorem mkKey_data_length (i : Nat) : (mkKey i).data.length = 7 + i := by
  unfold mkKey CACHE_KEY_PREFIX
  rw [String.data_append]
  simp
  omega

theorem mkKey_injective {i j : Nat} (h : mkKey i = mkKey j) : i = j := by
  have := congrArg (fun s => s.data.length) h
  simp only [mkKey_data_length] at this
  omega

theorem hasRatingPre_mkKey (i : Nat) : hasRatingPre (mkKey i) = true := by
  unfold hasRatingPre mkKey
  rw [String.data_append]
  simp

theorem getKey_mkEntries_fresh (n j : Nat) (hj : n ≤ j) :
    getKey (mkEntries n) (mkKey j) = none := by
  rw [getKey_eq_none_iff]
  intro p hp
  unfold mkEntries at hp
  rcases List.mem_map.1 hp with ⟨i, hi, hpi⟩
  rw [← hpi]
  intro hk
  have := mkKey_injective hk
  rw [List.mem_range] at hi
  omega

theorem ratingKeyCount_mkEntries (n : Nat) : ratingKeyCount (mkEntries n) = n := by
  unfold ratingKeyCount
  rw [List.filter_eq_self.mpr]
  · unfold mkEntries
    simp
  · intro e he
    unfold mkEntries at he
    rcases List.mem_map.1 he with ⟨i, -, hpi⟩
    rw [← hpi]
    exact hasRatingPre_mkKey i

/-- Claim C4, counterexample: starting from a cache holding exactly
`MAX_CACHE_SIZE` `rating_` entries with the prune counter at zero, one
more `writeCache` of a fresh key does not prune (the counter is far from
`PRUNE_INTERVAL`), leaving 1001 entries — the claimed bound fails after
this write. -/
theorem C4_counterexample :
    ratingKeyCount (mkEntries MAX_CACHE_SIZE) = MAX_CACHE_SIZE ∧
    ¬ ratingKeyCount (writeCache 5 (mkKey MAX_CACHE_SIZE) (CacheVal.miss none 5)
        ⟨mkEntries MAX_CACHE_SIZE, none, none, none, none⟩).cache ≤ MAX_CACHE_SIZE := by
  constructor
  · exact ratingKeyCount_mkEntries MAX_CACHE_SIZE
  · have hfresh := getKey_mkEntries_fresh MAX_CACHE_SIZE MAX_CACHE_SIZE (le_refl _)
    have hred : (writeCache 5 (mkKey MAX_CACHE_SIZE) (CacheVal.miss none 5)
        ⟨mkEntries MAX_CACHE_SIZE, none, none, none, none⟩).cache =
        mkEntries MAX_CACHE_SIZE ++ [(mkKey MAX_CACHE_SIZE, CacheVal.miss none 5)] := by
      unfold writeCache
      rw [if_neg (by norm_num [PRUNE_INTERVAL])]
      dsimp only
      exact setKey_fresh _ _ _ hfresh
    rw [hred]
    unfold ratingKeyCount
    rw [List.filter_append]
    rw [List.length_append]
    have h1 : ((mkEntries MAX_CACHE_SIZE).filter (fun e => hasRatingPre e.1)).length =
        MAX_CACHE_SIZE := ratingKeyCount_mkEntries MAX_CACHE_SIZE
    rw [h1]
    rw [List.filter_cons_of_pos (by simpa using hasRatingPre_mkKey MAX_CACHE_SIZE)]
    simp

/-- Witness for the amended C4 at a concrete prune-triggering write. -/
theorem C4_prune_bound_witness :
    ratingKeyCount (writeCache 5 "rating_x" (CacheVal.miss none 5)
        ⟨[], some "k", none, none, some 49⟩).cache ≤ MAX_CACHE_SIZE ∧
    (∀ e ∈ setKey ([] : List (String × CacheVal)) "rating_x" (CacheVal.miss none 5),
      entValid 5 e = true →
      e ∉ (writeCache 5 "rating_x" (CacheVal.miss none 5)
          ⟨[], some "k", none, none, some 49⟩).cache →
      ∀ f ∈ setKey ([] : List (String × CacheVal)) "rating_x" (CacheVal.miss none 5),
        entValid 5 f = true →
        f ∈ (writeCache 5 "rating_x" (CacheVal.miss none 5)
            ⟨[], some "k", none, none, some 49⟩).cache →
        e.2.cachedAt ≤ f.2.cachedAt) :=
  C4_prune_bound 5 "rating_x" (CacheVal.miss none 5) ⟨[], some "k", none, none, some 49⟩
    (by decide) (by decide)

/-! ## C10: the broad-search winner is never re-gated -/

/-- The single candidate the broad keyword search returns in the C10 run;
its title fails `isTitleMatch` against the query. -/
def c10Cand : Cand :=
  ⟨some "Completely Different Movie", some "2001", some "movie", none, none, some "tt9"⟩

def c10SearchData : OmdbData :=
  ⟨some "True", none, none, none, none, none, none, none, none, some [c10Cand]⟩

def c10Detail : OmdbData :=
  ⟨some "True", none, some "Completely Different Movie", some "2001", some "movie",
    some "tt9", some "9.0", none, none, none⟩

def c10NotFound : OmdbData :=
  ⟨some "False", some "Movie not found!", none, none, none, none, none, none, none, none⟩

/-- Script of the C10 run: both exact lookups miss, the broad search
returns one candidate, the detail fetch succeeds. -/
def c10SW : SW :=
  ⟨⟨[], some "k", none, none, none⟩,
    [FetchOutcome.ok c10NotFound, FetchOutcome.ok c10NotFound,
      FetchOutcome.ok c10SearchData, FetchOutcome.ok c10Detail], []⟩

/-- The record the C10 run returns and caches. -/
def c10Rec : CacheVal :=
  CacheVal.rating (some "9.0") none (some "Completely Different Movie") (some "2001")
    (some "movie") (some "tt9") 5

/-- The broad-search winner in the C10 run fails the acceptability gate. -/
theorem c10_gate_fails : isTitleMatch "Inception" "Completely Different Movie" = false := by
  unfold isTitleMatch
  rw [if_neg (by decide)]
  rw [if_neg (by decide)]
  rw [if_neg (by decide)]
  rw [if_neg (by decide)]
  rw [decide_eq_false]
  have h0 : (wordsOf (normTitle "Inception").data).filter
      (fun w => (wordsOf (normTitle "Completely Different Movie").data).contains w) = [] := by
    decide
  rw [h0]
  norm_num

/-- Claim C10: `pickBest` returns a sole candidate without computing any
score, and in the broad-search fallback the winner is never re-checked
against `isTitleMatch` — witnessed by a complete resolution that returns
and caches a record whose title fails `isTitleMatch` against the query. -/
theorem C10_no_gate_recheck :
    (∀ (qt : String) (qy : Option String) (c : Cand), pickBest qt qy (fun x => x) [c] = some c) ∧
    isTitleMatch "Inception" "Completely Different Movie" = false ∧
    (handleFetchRating 5 "d" "Inception" none none c10SW).1 = FetchResult.found c10Rec ∧
    getKey (handleFetchRating 5 "d" "Inception" none none c10SW).2.env.cache
      (cacheKeyOf "Inception" none none) = some c10Rec := by
  refine ⟨fun qt qy c => rfl, c10_gate_fails, rfl, rfl⟩

/-! ## C9: concurrent increment correctness

Step-relation model of `incrementApiCalls` under the `_counterLock`
mutex. Between two `await` points the JavaScript event loop runs a
task's code atomically, so one `incrementApiCalls()` call decomposes
into three atomic segments: (1) observe `_counterLock` null and take it
(the while-loop re-check and the lock assignment have no `await` between
them), issuing the storage read; (2) receive the read and issue the
storage write of the bumped pair; (3) after the write, release the lock
and wake waiters. A task that observes the lock busy simply stays at
`start` until a later acquire attempt; the promise-wait/retry loop of
the source is subsumed by letting the scheduler retry `acquire` at any
point while the lock is free. All increments run within one calendar
day; `dateMatches` models whether the stored `apiCallsDate` is today
(`false` on a cold counter, whatever stale count is stored). -/

inductive TaskSt where
  | start
  | reading
  | writing (c : Nat)
  | done
deriving DecidableEq

/-- The stored `(apiCallsToday, apiCallsDate == today)` pair. -/
structure CStore where
  count : Nat
  dateMatches : Bool
deriving DecidableEq

/-- One interleaving state: per-task program points, the mutex, storage. -/
structure Cfg where
  tasks : List TaskSt
  lock : Option Nat
  store : CStore
deriving DecidableEq

/-- Source `getApiCallCount()` over this store: stale-dated counts read as 0. -/
def countFn (s : CStore) : Nat := if s.dateMatches then s.count else 0

/-- The atomic segments of concurrent `incrementApiCalls()` calls. -/
inductive CStep : Cfg → Cfg → Prop where
  | acquire (cfg : Cfg) (i : Nat) (h : cfg.tasks.get? i = some TaskSt.start)
      (hl : cfg.lock = none) :
      CStep cfg ⟨cfg.tasks.set i TaskSt.reading, some i, cfg.store⟩
  | read (cfg : Cfg) (i : Nat) (h : cfg.tasks.get? i = some TaskSt.reading) :
      CStep cfg ⟨cfg.tasks.set i
        (TaskSt.writing (if cfg.store.dateMatches then cfg.store.count + 1 else 1)),
        cfg.lock, cfg.store⟩
  | write (cfg : Cfg) (i : Nat) (c : Nat)
      (h : cfg.tasks.get? i = some (TaskSt.writing c)) :
      CStep cfg ⟨cfg.tasks.set i TaskSt.done, none, ⟨c, true⟩⟩

/-- Arbitrary interleavings of the atomic segments. -/
def Reach : Cfg → Cfg → Prop := Relation.ReflTransGen CStep

/-- Initial configuration: `n` concurrent increment calls against a cold
counter holding a stale count `k`. -/
def initCfg (n k : Nat) : Cfg := ⟨List.replicate n TaskSt.start, none, ⟨k, false⟩⟩

/-- Number of completed increment calls. -/
def ndone (c : Cfg) : Nat := (c.tasks.filter (fun t => t == TaskSt.done)).length

def inCrit (t : TaskSt) : Bool :=
  match t with
  | TaskSt.reading => true
  | TaskSt.writing _ => true
  | _ => false

/-- The mutual-exclusion/counting invariant: any task inside the
critical section holds the lock; the observable count equals the number
of completed calls; a task about to write holds one more than that. -/
def QInv (c : Cfg) : Prop :=
  (∀ i t, c.tasks.get? i = some t → inCrit t = true → c.lock = some i) ∧
  countFn c.store = ndone c ∧
  (∀ i cv, c.tasks.get? i = some (TaskSt.writing cv) → cv = ndone c + 1)

theorem countP_set (p : TaskSt → Bool) (l : List TaskSt) (i : Nat) (t t' : TaskSt)
    (h : l.get? i = some t) :
    ((l.set i t').filter p).length + (if p t then 1 else 0) =
      (l.filter p).length + (if p t' then 1 else 0) := by
  induction l generalizing i with
  | nil => simp [List.get?] at h
  | cons a l ih =>
    cases i with
    | zero =>
      simp only [List.get?] at h
      injection h with h
      subst h
      simp only [List.set]
      rw [List.filter_cons, List.filter_cons]
      by_cases hpa : p a <;> by_cases hpt : p t' <;> simp [hpa, hpt] <;> omega
    | succ i =>
      simp only [List.get?] at h
      simp only [List.set]
      rw [List.filter_cons, List.filter_cons]
      have hih := ih i h
      by_cases hpa : p a <;> by_cases hpt : p t <;> by_cases hpt2 : p t' <;>
        simp_all [List.length_cons] <;> omega

theorem ndone_set (c : Cfg) (i : Nat) (t t' : TaskSt) (h : c.tasks.get? i = some t)
    (lk : Option Nat) (st : CStore) :
    ndone ⟨c.tasks.set i t', lk, st⟩ +
      (if (t == TaskSt.done) then 1 else 0) =
      ndone c + (if (t' == TaskSt.done) then 1 else 0) := by
  unfold ndone
  exact countP_set (fun x => x == TaskSt.done) c.tasks i t t' h

theorem inv_init (n k : Nat) : QInv (initCfg n k) := by
  refine ⟨?_, ?_, ?_⟩
  · intro i t h hc
    have := List.get?_mem h
    have ht : t = TaskSt.start := List.eq_of_mem_replicate this
    rw [ht] at hc
    simp [inCrit] at hc
  · unfold countFn ndone initCfg
    simp only []
    rw [List.filter_eq_nil_iff.mpr]
    · simp
    · intro a ha
      have := List.eq_of_mem_replicate ha
      simp [this]
  · intro i cv h
    have := List.get?_mem h
    have := List.eq_of_mem_replicate this
    simp at this

theorem inv_step {c c' : Cfg} (hstep : CStep c c') (hinv : QInv c) : QInv c' := by
  obtain ⟨hlockinv, hcount, hwriteinv⟩ := hinv
  cases hstep with
  | acquire i h hl =>
    have hnd : ndone ⟨c.tasks.set i TaskSt.reading, some i, c.store⟩ = ndone c := by
      have := ndone_set c i TaskSt.start TaskSt.reading h (some i) c.store
      simpa using this
    refine ⟨?_, ?_, ?_⟩
    · intro j t hj hc
      by_cases hij : i = j
      · exact congrArg some hij
      · rw [List.get?_eq_getElem?] at hj
        rw [List.getElem?_set_ne hij] at hj
        rw [← List.get?_eq_getElem?] at hj
        have := hlockinv j t hj hc
        rw [hl] at this
        exact absurd this (by simp)
    · rw [hnd]
      exact hcount
    · intro j cv hj
      by_cases hij : i = j
      · subst hij
        rw [List.get?_eq_getElem?] at hj
        rw [List.getElem?_set_self (by
          have := List.get?_eq_some.1 h
          exact this.1)] at hj
        simp at hj
      · rw [List.get?_eq_getElem?] at hj
        rw [List.getElem?_set_ne hij] at hj
        rw [← List.get?_eq_getElem?] at hj
        have := hlockinv j (TaskSt.writing cv) hj (by simp [inCrit])
        rw [hl] at this
        exact absurd this (by simp)
  | read i h =>
    have hlocki : c.lock = some i := hlockinv i TaskSt.reading h (by simp [inCrit])
    have hnd : ndone ⟨c.tasks.set i
        (TaskSt.writing (if c.store.dateMatches then c.store.count + 1 else 1)),
        c.lock, c.store⟩ = ndone c := by
      have := ndone_set c i TaskSt.reading
        (TaskSt.writing (if c.store.dateMatches then c.store.count + 1 else 1)) h
        c.lock c.store
      simpa using this
    refine ⟨?_, ?_, ?_⟩
    · intro j t hj hc
      by_cases hij : i = j
      · subst hij
        exact hlocki
      · rw [List.get?_eq_getElem?] at hj
        rw [List.getElem?_set_ne hij] at hj
        rw [← List.get?_eq_getElem?] at hj
        exact hlockinv j t hj hc
    · rw [hnd]
      exact hcount
    · intro j cv hj
      by_cases hij : i = j
      · subst hij
        rw [List.get?_eq_getElem?] at hj
        rw [List.getElem?_set_self (by
          have := List.get?_eq_some.1 h
          exact this.1)] at hj
        rw [hnd]
        injection hj with hj
        injection hj with hj
        subst hj
        unfold countFn at hcount
        by_cases hdm : c.store.dateMatches
        · rw [if_pos hdm]
          rw [if_pos hdm] at hcount
          omega
        · rw [if_neg hdm]
          rw [if_neg hdm] at hcount
          omega
      · exfalso
        rw [List.get?_eq_getElem?] at hj
        rw [List.getElem?_set_ne hij] at hj
        rw [← List.get?_eq_getElem?] at hj
        have := hlockinv j (TaskSt.writing cv) hj (by simp [inCrit])
        rw [hlocki] at this
        injection this with this
        exact hij this
  | write i cv h =>
    have hlocki : c.lock = some i := hlockinv i (TaskSt.writing cv) h (by simp [inCrit])
    have hcv : cv = ndone c + 1 := hwriteinv i cv h
    have hnd : ndone ⟨c.tasks.set i TaskSt.done, none, ⟨cv, true⟩⟩ = ndone c + 1 := by
      have := ndone_set c i (TaskSt.writing cv) TaskSt.done h none ⟨cv, true⟩
      simpa using this
    refine ⟨?_, ?_, ?_⟩
    · intro j t hj hc
      exfalso
      by_cases hij : i = j
      · subst hij
        rw [List.get?_eq_getElem?] at hj
        rw [List.getElem?_set_self (by
          have := List.get?_eq_some.1 h
          exact this.1)] at hj
        injection hj with hj
        rw [← hj] at hc
        simp [inCrit] at hc
      · rw [List.get?_eq_getElem?] at hj
        rw [List.getElem?_set_ne hij] at hj
        rw [← List.get?_eq_getElem?] at hj
        have := hlockinv j t hj hc
        rw [hlocki] at this
        injection this with this
        exact hij this
    · rw [hnd]
      unfold countFn
      simp only [if_pos]
      omega
    · intro j cv' hj
      exfalso
      by_cases hij : i = j
      · subst hij
        rw [List.get?_eq_getElem?] at hj
        rw [List.getElem?_set_self (by
          have := List.get?_eq_some.1 h
          exact this.1)] at hj
        simp at hj
      · rw [List.get?_eq_getElem?] at hj
        rw [List.getElem?_set_ne hij] at hj
        rw [← List.get?_eq_getElem?] at hj
        have := hlockinv j (TaskSt.writing cv') hj (by simp [inCrit])
        rw [hlocki] at this
        injection this with this
        exact hij this

theorem inv_reach {c₀ c : Cfg} (h : Reach c₀ c) (h0 : QInv c₀) : QInv c := by
  induction h with
  | refl => exact h0
  | tail _ hstep ih => exact inv_step hstep ih

theorem reach_tasks_length {c₀ c : Cfg} (h : Reach c₀ c) :
    c.tasks.length = c₀.tasks.length := by
  induction h with
  | refl => rfl
  | tail _ hstep ih =>
    cases hstep <;> simpa using ih

/-- Claim C9: any complete interleaving of `n` concurrent
`incrementApiCalls()` calls against a cold counter ends with
`getApiCallCount() = n` — the `_counterLock` mutex serializes the
read-increment-write sequences, so no update is lost. -/
theorem C9_concurrent_increments (n k : Nat) (c : Cfg)
    (hreach : Reach (initCfg n k) c)
    (hdone : ∀ t ∈ c.tasks, t = TaskSt.done) :
    countFn c.store = n := by
  have hinv := inv_reach hreach (inv_init n k)
  have hlen : c.tasks.length = n := by
    have := reach_tasks_length hreach
    simpa [initCfg] using this
  have hall : ndone c = c.tasks.length := by
    unfold ndone
    rw [List.filter_eq_self.mpr]
    intro a ha
    simp [hdone a ha]
  rw [hinv.2.1, hall, hlen]

theorem C9_concurrent_increments_witness :
    countFn (Cfg.mk [TaskSt.done, TaskSt.done] none ⟨2, true⟩).store = 2 := by
  apply C9_concurrent_increments 2 3
  · have s1 : CStep (initCfg 2 3) ⟨[TaskSt.reading, TaskSt.start], some 0, ⟨3, false⟩⟩ :=
      CStep.acquire (initCfg 2 3) 0 rfl rfl
    have s2 : CStep ⟨[TaskSt.reading, TaskSt.start], some 0, ⟨3, false⟩⟩
        ⟨[TaskSt.writing 1, TaskSt.start], some 0, ⟨3, false⟩⟩ :=
      CStep.read ⟨[TaskSt.reading, TaskSt.start], some 0, ⟨3, false⟩⟩ 0 rfl
    have s3 : CStep ⟨[TaskSt.writing 1, TaskSt.start], some 0, ⟨3, false⟩⟩
        ⟨[TaskSt.done, TaskSt.start], none, ⟨1, true⟩⟩ :=
      CStep.write ⟨[TaskSt.writing 1, TaskSt.start], some 0, ⟨3, false⟩⟩ 0 1 rfl
    have s4 : CStep ⟨[TaskSt.done, TaskSt.start], none, ⟨1, true⟩⟩
        ⟨[TaskSt.done, TaskSt.reading], some 1, ⟨1, true⟩⟩ :=
      CStep.acquire ⟨[TaskSt.done, TaskSt.start], none, ⟨1, true⟩⟩ 1 rfl rfl
    have s5 : CStep ⟨[TaskSt.done, TaskSt.reading], some 1, ⟨1, true⟩⟩
        ⟨[TaskSt.done, TaskSt.writing 2], some 1, ⟨1, true⟩⟩ :=
      CStep.read ⟨[TaskSt.done, TaskSt.reading], some 1, ⟨1, true⟩⟩ 1 rfl
    have s6 : CStep ⟨[TaskSt.done, TaskSt.writing 2], some 1, ⟨1, true⟩⟩
        ⟨[TaskSt.done, TaskSt.done], none, ⟨2, true⟩⟩ :=
      CStep.write ⟨[TaskSt.done, TaskSt.writing 2], some 1, ⟨1, true⟩⟩ 1 2 rfl
    exact Relation.ReflTransGen.tail (Relation.ReflTransGen.tail (Relation.ReflTransGen.tail
      (Relation.ReflTransGen.tail (Relation.ReflTransGen.tail
        (Relation.ReflTransGen.tail Relation.ReflTransGen.refl s1) s2) s3) s4) s5) s6
  · intro t ht
    rcases List.mem_cons.1 ht with h | h
    · exact h
    · simpa using h
